import Mathlib

/-!
# Verification of the Workspace Versioning & Change-Notification Engine

A shallow embedding, in Lean 4, of the core of the `mcp-workspace-manager`
Go program: the path sandbox (`pkg/workspace/manager.go`), the slug
generator, the shared tool implementations (`pkg/mcpsdk/tools.go`), the
in-memory event hub (`pkg/events/hub.go`) and the filesystem watcher's
classification/debounce logic.

Modelling conventions:
* Go strings are Lean `String`s; byte lengths use `String.utf8ByteSize`.
  Go string primitives (`strings.Split`, `strings.HasPrefix`,
  `strings.ReplaceAll`, …) are re-implemented below by structural
  recursion over `String.data`, so that every definition evaluates
  inside the kernel.
* The operating-system filesystem visible to the tools is a flat
  association list from absolute path to file content; directories exist
  implicitly through their descendants (every directory created through
  the API immediately receives a `.gitkeep` file, so this is faithful for
  all states reachable through the API).
* SHA-256 (used only as an opaque content fingerprint by the code) is an
  abstract function parameter `hash : String → String`; theorems assume
  at most that digests are nonempty, which holds for hex digests.
* The git backend (go-git, a third-party dependency whose sources are not
  part of this repository) is modelled from the spec's §4.4 contract:
  `commit` stages everything and fails when the backend call fails, and
  "nothing staged" is a backend failure that callers are expected to
  avoid by no-op detection.  Because the backend version is not pinned in
  the sources available here, the model is parameterised by
  `emptyCommitFails : Bool` so that theorems can cover both a backend
  that rejects empty commits and one that records them.
-/

namespace McpWorkspaces

deriving instance DecidableEq for Except

/-! ## Go string primitives, kernel-computable -/

/-- `a` is an initial run of `b` (Go `strings.HasPrefix(b, a)` on char
lists). -/
def listBeginsWith : List Char → List Char → Bool
  | [], _ => true
  | _ :: _, [] => false
  | a :: as, b :: bs => a = b && listBeginsWith as bs

/-- Go `strings.HasPrefix(s, pre)`. -/
def beginsWith (s pre : String) : Bool :=
  listBeginsWith pre.data s.data

/-- Go `strings.HasSuffix(s, suf)`. -/
def endsWith (s suf : String) : Bool :=
  listBeginsWith suf.data.reverse s.data.reverse

/-- Go `strings.Split(s, sep)` for a single-character separator, on char
lists: `splitChar sep []` is `[[]]`, matching `strings.Split("", sep) =
[""]`. -/
def splitChar (sep : Char) : List Char → List (List Char)
  | [] => [[]]
  | c :: rest =>
    if c = sep then [] :: splitChar sep rest
    else
      match splitChar sep rest with
      | h :: t => (c :: h) :: t
      | [] => [[c]]

/-- Fuel-driven core of Go `strings.Replace`/`ReplaceAll` for a non-empty
pattern: replace each non-overlapping occurrence, left to right.  The
fuel only serves structural termination; it is always called with fuel
at least the length of the subject. -/
def replaceAllAux (pat repl : List Char) : Nat → List Char → List Char
  | 0, s => s
  | _, [] => []
  | fuel + 1, c :: rest =>
    if listBeginsWith pat (c :: rest) then
      repl ++ replaceAllAux pat repl fuel ((c :: rest).drop pat.length)
    else
      c :: replaceAllAux pat repl fuel rest

/-- Go `strings.ReplaceAll(s, old, new)`, including the empty-`old` rule
(insert `new` before every character and after the last one). -/
def goReplaceAll (s old new : String) : String :=
  if old.data = [] then
    String.mk (insertEverywhere new.data s.data)
  else
    String.mk (replaceAllAux old.data new.data s.data.length s.data)
where
  insertEverywhere (repl : List Char) : List Char → List Char
    | [] => repl
    | c :: rest => repl ++ c :: insertEverywhere repl rest

/-- Fuel-driven core of Go `strings.Split` for a non-empty multi-character
separator. -/
def splitAllAux (pat : List Char) : Nat → List Char → List (List Char)
  | 0, s => [s]
  | _, [] => [[]]
  | fuel + 1, c :: rest =>
    if listBeginsWith pat (c :: rest) then
      [] :: splitAllAux pat fuel ((c :: rest).drop pat.length)
    else
      match splitAllAux pat fuel rest with
      | h :: t => (c :: h) :: t
      | [] => [[c]]

/-- Go `strings.Split(s, sep)` for a non-empty separator. -/
def goSplit (s sep : String) : List String :=
  (splitAllAux sep.data s.data.length s.data).map String.mk

/-- Go `strings.Count(s, substr)`: the number of non-overlapping
occurrences, or the rune count plus one when `substr` is empty. -/
def goCount (s substr : String) : Nat :=
  if substr.data = [] then s.data.length + 1
  else (splitAllAux substr.data s.data.length s.data).length - 1

/-! ## Lexical path model (Go `path/filepath`, POSIX rules) -/

/-- The non-empty `/`-separated segments of a path string. -/
def pathSegs (s : String) : List String :=
  ((splitChar '/' s.data).map String.mk).filter (fun seg => seg ≠ "")

/-- Go `filepath.IsAbs` on POSIX: the path starts with a separator. -/
def isAbsPath (s : String) : Bool :=
  beginsWith s "/"

/-- One step of Go `filepath.Clean`'s lexical processing, on a reversed
segment stack.  `rooted` is true when cleaning an absolute path, in which
case `..` at the root is dropped. -/
def cleanPush (rooted : Bool) (stack : List String) (seg : String) : List String :=
  if seg = "." then stack
  else if seg = ".." then
    match stack with
    | [] => if rooted then [] else [".."]
    | top :: rest => if top = ".." then ".." :: top :: rest else rest
  else seg :: stack

/-- The segment list of Go `filepath.Clean` applied to a path with the
given segments: `.` segments vanish and `..` segments pop, with `..`
preserved (resp. dropped) at the start of a relative (resp. rooted)
path. -/
def cleanSegs (rooted : Bool) (segs : List String) : List String :=
  (segs.foldl (cleanPush rooted) []).reverse

/-- Render an absolute path from its cleaned segments, as the Go string
functions see it (`/` followed by the `/`-separated segments). -/
def renderAbs (segs : List String) : String :=
  "/" ++ String.intercalate "/" segs

/-- Error cases of `Manager.SafePath` (pkg/workspace/manager.go). -/
inductive SafePathError where
  | notFound        -- "workspace '%s' not found"
  | mustBeRelative  -- "path must be relative"
  | outOfBounds     -- "path escapes workspace boundaries"
deriving DecidableEq, Repr

/-- `Manager.SafePath` (pkg/workspace/manager.go, lines 95–121).

`rootSegs` are the cleaned segments of the manager's absolute root path
and `wsExists` is the result of the `os.Stat` existence probe on the
workspace directory.  Following the source: stat the workspace root;
`filepath.Clean` the relative path and reject absolute inputs;
`filepath.Join` it onto the workspace root; finally accept iff the
workspace root is a *string prefix* (`strings.HasPrefix`) of the joined
absolute path. -/
def SafePath (rootSegs : List String) (wsExists : Bool) (workspaceID relativePath : String) :
    Except SafePathError String :=
  let workspaceRootSegs := cleanSegs true (rootSegs ++ pathSegs workspaceID)
  let workspaceRoot := renderAbs workspaceRootSegs
  if ¬ wsExists then .error .notFound
  else if isAbsPath relativePath then .error .mustBeRelative
  else
    let cleanedRel := cleanSegs (isAbsPath relativePath) (pathSegs relativePath)
    let absPath := renderAbs (cleanSegs true (workspaceRootSegs ++ cleanedRel))
    if beginsWith absPath workspaceRoot then .ok absPath
    else .error .outOfBounds

/-- A path string lies within a root directory: it is the root itself or
has `root ++ "/"` as a prefix.  This is the intended meaning of "inside
the workspace root" that the sandbox is supposed to enforce. -/
def isWithinRoot (root p : String) : Bool :=
  p = root || beginsWith p (root ++ "/")

/-! ## Protected names (pkg/mcpsdk/tools.go, lines 25–40) -/

/-- `isProtectedName`: the version-control metadata directory and the
empty-directory placeholder file. -/
def isProtectedName (name : String) : Bool :=
  name == ".git" || name == ".gitkeep"

/-- `isProtectedPath`: `filepath.Clean` the relative path, split it on the
path separator, and test whether any non-empty segment is protected. -/
def isProtectedPath (rel : String) : Bool :=
  (cleanSegs (isAbsPath rel) (pathSegs rel)).any isProtectedName

/-! ## Events (pkg/events/hub.go, data types) -/

/-- `events.Actor`: the source of an event. -/
structure Actor where
  kind : String
  id : Option String := none
  display : Option String := none
deriving DecidableEq, Repr

/-- `events.WorkspaceEvent`: the normalized change notification.  Sizes
are in bytes; timestamps are opaque strings here. -/
structure WorkspaceEvent where
  id : Nat := 0
  ts : String := ""
  workspaceId : String := ""
  type : String := ""
  path : String := ""
  prevPath : Option String := none
  isDir : Bool := false
  size : Option Nat := none
  mtime : Option String := none
  actor : Option Actor := none
  commit : Option String := none
  correlationId : Option String := none
deriving DecidableEq, Repr

instance : Inhabited WorkspaceEvent := ⟨{}⟩

/-! ## Workspace content state and the version-store adapter -/

/-- The mutable content of one workspace: the working tree (`files`, an
association list from absolute path to content) and the tree snapshot
recorded by the last commit, plus the HEAD hash and a commit counter. -/
structure WS where
  files : List (String × String) := []
  committed : List (String × String) := []
  head : String := ""
  commitCount : Nat := 0
deriving DecidableEq, Repr

/-- Insert or overwrite a key in an association list (Go map update). -/
def assocSet {α β : Type} [DecidableEq α] (m : List (α × β)) (k : α) (v : β) : List (α × β) :=
  match m with
  | [] => [(k, v)]
  | (k', v') :: rest => if k' = k then (k, v) :: rest else (k', v') :: assocSet rest k v

/-- Some file lives strictly below `p`. -/
def hasDescendant (files : List (String × String)) (p : String) : Bool :=
  files.any (fun kv => beginsWith kv.1 (p ++ "/"))

/-- `os.Stat` succeeds on `p`: it is a file or a (non-empty) directory. -/
def statExists (ws : WS) (p : String) : Bool :=
  (ws.files.lookup p).isSome || hasDescendant ws.files p

/-- `os.Stat(p).IsDir()`: some file lives strictly below `p`. -/
def statIsDir (ws : WS) (p : String) : Bool :=
  hasDescendant ws.files p

/-- `os.RemoveAll(p)`: remove `p` and everything below it. -/
def removeSubtree (files : List (String × String)) (p : String) : List (String × String) :=
  files.filter (fun kv => ¬ (kv.1 = p ∨ beginsWith kv.1 (p ++ "/") = true))

/-- Modelled from the spec: `Manager.Commit` delegates to the go-git
backend, whose sources are not part of this repository.  Per §4.4 the
adapter stages all working-tree changes and commits, failing when the
backend call fails; "nothing staged" is such a backend failure (go-git's
`ErrEmptyCommit`) that callers are expected to avoid by detecting no-ops
first.  `emptyCommitFails` selects between a backend that rejects empty
commits (`true`, current go-git) and one that records them (`false`,
historical go-git).  Commit hashes are modelled by a counter; they are
always non-empty and fresh. -/
def commitWS (emptyCommitFails : Bool) (ws : WS) : Option (WS × String) :=
  if emptyCommitFails ∧ ws.files = ws.committed then none
  else
    let h := "commit-" ++ toString (ws.commitCount + 1)
    some ({ ws with committed := ws.files, head := h, commitCount := ws.commitCount + 1 }, h)

/-! ## Shared tool implementations (pkg/mcpsdk/tools.go)

Each tool returns `Except ToolErr (WS × response × List WorkspaceEvent)`:
the updated workspace content, the response struct, and the list of
events published through `publishWorkspaceEvent` during the call.  An
error result means the operation returned before mutating anything
relevant (writes that fail mid-way are noted where they can occur). -/

/-- The typed error kinds carried by the Go error strings
(`INVALID_INPUT: …`, `NOT_FOUND: …`, `OUT_OF_BOUNDS: …`,
`CONFLICT: file etag mismatch`, `CONFLICT: workspace head mismatch`,
`ALREADY_EXISTS: …`, `UNSUPPORTED: …`, `INTERNAL: …`). -/
inductive ToolErr where
  | invalidInput
  | notFound
  | outOfBounds (e : SafePathError)
  | conflictEtag
  | conflictHead
  | alreadyExists
  | unsupported
  | internal
deriving DecidableEq, Repr

/-- `WriteFileRequest` (pkg/mcpsdk): the optional precondition fields are
the ones read by `FSWriteFile` in tools.go (`IfMatchFileEtag`,
`IfMatchWorkspaceHead`, both `*string`). -/
structure WriteFileRequest where
  workspaceId : String
  path : String
  content : String
  ifMatchFileEtag : Option String := none
  ifMatchWorkspaceHead : Option String := none
deriving DecidableEq, Repr

structure WriteFileResponse where
  path : String
  bytesWritten : Nat
  overwritten : Bool
  commit : String
deriving DecidableEq, Repr

/-- The file-etag precondition test of `FSWriteFile` (tools.go line 90):
supplied, non-empty, the file exists, and the current etag differs. -/
def etagMismatch (ifMatch : Option String) (overwritten : Bool) (currEtag : String) : Bool :=
  match ifMatch with
  | none => false
  | some e => e != "" && overwritten && currEtag != e

/-- The workspace-head precondition test (tools.go lines 93–97):
supplied, non-empty, and different from the current HEAD. -/
def headMismatch (ifMatch : Option String) (head : String) : Bool :=
  match ifMatch with
  | none => false
  | some h => h != "" && head != h

/-- `FSWriteFile` (tools.go lines 68–135).  `hash` is the SHA-256 hex
digest; `rootSegs`/`wsExists` feed `SafePath`.  The `os.MkdirAll` on the
parent directory is a no-op in the flat file model; an existing directory
at the target makes `os.WriteFile` fail, surfaced as `internal`. -/
def FSWriteFile (hash : String → String) (emptyCommitFails : Bool)
    (rootSegs : List String) (wsExists : Bool) (ws : WS) (a : WriteFileRequest) :
    Except ToolErr (WS × WriteFileResponse × List WorkspaceEvent) :=
  if a.workspaceId = "" ∨ a.path = "" then .error .invalidInput
  else if isProtectedPath a.path then .error .notFound
  else
    match SafePath rootSegs wsExists a.workspaceId a.path with
    | .error e => .error (.outOfBounds e)
    | .ok absPath =>
      let overwritten := statExists ws absPath
      let currEtag :=
        if overwritten then
          match ws.files.lookup absPath with
          | some b => hash b
          | none => ""
        else ""
      if etagMismatch a.ifMatchFileEtag overwritten currEtag then .error .conflictEtag
      else if headMismatch a.ifMatchWorkspaceHead ws.head then .error .conflictHead
      else if overwritten && currEtag != "" && hash a.content == currEtag then
        .ok (ws, { path := a.path, bytesWritten := 0, overwritten := overwritten, commit := "" }, [])
      else if statIsDir ws absPath then .error .internal
      else
        match commitWS emptyCommitFails { ws with files := assocSet ws.files absPath a.content } with
        | none => .error .internal
        | some (ws', ch) =>
          let evtType := if overwritten then "file.updated" else "file.created"
          .ok (ws',
            { path := a.path, bytesWritten := a.content.utf8ByteSize,
              overwritten := overwritten, commit := ch },
            [{ type := evtType, path := a.path, isDir := false, commit := some ch }])

structure Edit where
  oldText : String
  newText : String
deriving DecidableEq, Repr

structure EditFileRequest where
  workspaceId : String
  path : String
  edits : List Edit
  dryRun : Bool := false
  ifMatchFileEtag : Option String := none
  ifMatchWorkspaceHead : Option String := none
deriving DecidableEq, Repr

structure EditFileResponse where
  dryRun : Bool
  path : String
  changes : Nat
  bytesWritten : Nat
  commit : String
deriving DecidableEq, Repr

/-- `FSEditFile` returns `any` in Go: either the edit response or, for dry
runs, a diff response.  The pretty diff text (diffmatchpatch) is not
modelled; the dry-run constructor carries the `matches` count. -/
inductive EditFileOutput where
  | done (r : EditFileResponse)
  | dryRunDiff (matchCount : Nat)
deriving DecidableEq, Repr

/-- The sequential substring replacements of `FSEditFile` (tools.go lines
380–385): fold `strings.ReplaceAll` over the edits, accumulating the
`matches` count of each `oldText` in the text current at that step. -/
def applyEdits (orig : String) (edits : List Edit) : String × Nat :=
  edits.foldl
    (fun acc e => (goReplaceAll acc.1 e.oldText e.newText, acc.2 + goCount acc.1 e.oldText))
    (orig, 0)

/-- `FSEditFile` (tools.go lines 353–420). -/
def FSEditFile (hash : String → String) (emptyCommitFails : Bool)
    (rootSegs : List String) (wsExists : Bool) (ws : WS) (a : EditFileRequest) :
    Except ToolErr (WS × EditFileOutput × List WorkspaceEvent) :=
  if a.workspaceId = "" ∨ a.path = "" ∨ a.edits = [] then .error .invalidInput
  else if isProtectedPath a.path then .error .notFound
  else
    match SafePath rootSegs wsExists a.workspaceId a.path with
    | .error e => .error (.outOfBounds e)
    | .ok absPath =>
      match ws.files.lookup absPath with
      | none => .error .notFound
      | some orig =>
        let currEtag := hash orig
        if (match a.ifMatchFileEtag with
            | none => false
            | some e => e != "" && currEtag != e) then .error .conflictEtag
        else if headMismatch a.ifMatchWorkspaceHead ws.head then .error .conflictHead
        else
          let res := applyEdits orig a.edits
          if res.1 = orig then
            .ok (ws, .done { dryRun := false, path := a.path, changes := 0,
                             bytesWritten := 0, commit := "" }, [])
          else if a.dryRun then
            .ok (ws, .dryRunDiff res.2, [])
          else
            match commitWS emptyCommitFails { ws with files := assocSet ws.files absPath res.1 } with
            | none => .error .internal
            | some (ws', ch) =>
              .ok (ws',
                .done { dryRun := false, path := a.path, changes := a.edits.length,
                        bytesWritten := res.1.utf8ByteSize, commit := ch },
                [{ type := "file.updated", path := a.path, isDir := false, commit := some ch }])

structure CreateDirectoryRequest where
  workspaceId : String
  path : String
deriving DecidableEq, Repr

structure CreateDirectoryResponse where
  path : String
  created : Bool
  commit : String
deriving DecidableEq, Repr

/-- `FSCreateDirectory` (tools.go lines 199–234): `created` is whether the
target did not exist; `os.MkdirAll` (failing when the target is an
existing file), ensure the `.gitkeep` placeholder, then always commit. -/
def FSCreateDirectory (emptyCommitFails : Bool)
    (rootSegs : List String) (wsExists : Bool) (ws : WS) (a : CreateDirectoryRequest) :
    Except ToolErr (WS × CreateDirectoryResponse × List WorkspaceEvent) :=
  if isProtectedPath a.path then .error .notFound
  else
    match SafePath rootSegs wsExists a.workspaceId a.path with
    | .error e => .error (.outOfBounds e)
    | .ok absPath =>
      let created := ¬ statExists ws absPath
      if (ws.files.lookup absPath).isSome then .error .internal
      else
        let gk := absPath ++ "/.gitkeep"
        let files' := if (ws.files.lookup gk).isSome then ws.files else assocSet ws.files gk ""
        match commitWS emptyCommitFails { ws with files := files' } with
        | none => .error .internal
        | some (ws', ch) =>
          .ok (ws', { path := a.path, created := created, commit := ch },
            [{ type := "dir.created", path := a.path, isDir := true, commit := some ch }])

structure DeleteFileRequest where
  workspaceId : String
  path : String
deriving DecidableEq, Repr

structure DeleteFileResponse where
  path : String
  commit : String
deriving DecidableEq, Repr

/-- `FSDeleteFile` (tools.go lines 592–630): no existence check on the
target; stat (best-effort) to classify directory-ness, `os.RemoveAll`
(which succeeds on a missing path), then commit and publish. -/
def FSDeleteFile (emptyCommitFails : Bool)
    (rootSegs : List String) (wsExists : Bool) (ws : WS) (a : DeleteFileRequest) :
    Except ToolErr (WS × DeleteFileResponse × List WorkspaceEvent) :=
  if a.workspaceId = "" ∨ a.path = "" then .error .invalidInput
  else if isProtectedPath a.path then .error .notFound
  else
    match SafePath rootSegs wsExists a.workspaceId a.path with
    | .error e => .error (.outOfBounds e)
    | .ok absPath =>
      let isDir := statIsDir ws absPath
      match commitWS emptyCommitFails { ws with files := removeSubtree ws.files absPath } with
      | none => .error .internal
      | some (ws', ch) =>
        let evtType := if isDir then "dir.deleted" else "file.deleted"
        .ok (ws', { path := a.path, commit := ch },
          [{ type := evtType, path := a.path, isDir := isDir, commit := some ch }])

structure ReadFileRequest where
  workspaceId : String
  path : String
  head : Option Nat := none
  tail : Option Nat := none
deriving DecidableEq, Repr

structure ReadFileResponse where
  content : String
  totalLines : Nat
  etag : String
  mtime : String := ""
  workspaceHead : String
  head : Option Nat := none
  tail : Option Nat := none
deriving DecidableEq, Repr

/-- `FSReadTextFile` (tools.go lines 137–197).  The file mtime is an OS
clock reading and is left empty here. -/
def FSReadTextFile (hash : String → String)
    (rootSegs : List String) (wsExists : Bool) (ws : WS) (a : ReadFileRequest) :
    Except ToolErr ReadFileResponse :=
  if a.workspaceId = "" ∨ a.path = "" then .error .invalidInput
  else if a.head.isSome ∧ a.tail.isSome then .error .invalidInput
  else if isProtectedPath a.path then .error .notFound
  else
    match SafePath rootSegs wsExists a.workspaceId a.path with
    | .error e => .error (.outOfBounds e)
    | .ok absPath =>
      match ws.files.lookup absPath with
      | none => if statIsDir ws absPath then .error .internal else .error .notFound
      | some content =>
        let lines := goSplit content "\n"
        let total := lines.length
        let base : ReadFileResponse :=
          { content := "", totalLines := total, etag := hash content, workspaceHead := ws.head }
        match a.head, a.tail with
        | some h0, _ =>
          let h := min h0 total
          .ok { base with content := String.intercalate "\n" (lines.take h), head := some h }
        | none, some t0 =>
          let t := min t0 total
          .ok { base with content := String.intercalate "\n" (lines.drop (total - t)), tail := some t }
        | none, none => .ok { base with content := content }

structure GetFileInfoRequest where
  workspaceId : String
  path : String
deriving DecidableEq, Repr

/-- `GetFileInfoResponse` restricted to the modelled fields (mtime and
permission bits are OS metadata). -/
structure GetFileInfoResponse where
  size : Nat
  type : String
deriving DecidableEq, Repr

/-- `FSGetFileInfo` (tools.go lines 259–285). -/
def FSGetFileInfo (rootSegs : List String) (wsExists : Bool) (ws : WS) (a : GetFileInfoRequest) :
    Except ToolErr GetFileInfoResponse :=
  if isProtectedPath a.path then .error .notFound
  else
    match SafePath rootSegs wsExists a.workspaceId a.path with
    | .error e => .error (.outOfBounds e)
    | .ok absPath =>
      if statIsDir ws absPath then .ok { size := 0, type := "directory" }
      else
        match ws.files.lookup absPath with
        | some content => .ok { size := content.utf8ByteSize, type := "file" }
        | none => .error .notFound

structure MoveFileRequest where
  workspaceId : String
  source : String
  destination : String
deriving DecidableEq, Repr

structure MoveFileResponse where
  source : String
  destination : String
  commit : String
deriving DecidableEq, Repr

/-- Key renaming performed by `os.Rename(src, dst)` on the flat tree. -/
def renameKey (src dst k : String) : String :=
  if k = src then dst
  else if beginsWith k (src ++ "/") then
    dst ++ String.mk (k.data.drop src.data.length)
  else k

/-- `FSMoveFile` (tools.go lines 311–351): destination collision is
`ALREADY_EXISTS`; a missing source makes `os.Rename` fail (`internal`). -/
def FSMoveFile (emptyCommitFails : Bool)
    (rootSegs : List String) (wsExists : Bool) (ws : WS) (a : MoveFileRequest) :
    Except ToolErr (WS × MoveFileResponse × List WorkspaceEvent) :=
  if isProtectedPath a.source ∨ isProtectedPath a.destination then .error .notFound
  else
    match SafePath rootSegs wsExists a.workspaceId a.source with
    | .error e => .error (.outOfBounds e)
    | .ok src =>
      match SafePath rootSegs wsExists a.workspaceId a.destination with
      | .error e => .error (.outOfBounds e)
      | .ok dst =>
        if statExists ws dst then .error .alreadyExists
        else if ¬ statExists ws src then .error .internal
        else
          let files' := ws.files.map (fun kv => (renameKey src dst kv.1, kv.2))
          match commitWS emptyCommitFails { ws with files := files' } with
          | none => .error .internal
          | some (ws', ch) =>
            let isDir := statIsDir ws' dst
            .ok (ws', { source := a.source, destination := a.destination, commit := ch },
              [{ type := "file.moved", path := a.destination, prevPath := some a.source,
                 isDir := isDir, commit := some ch }])

/-! ## Directory listing, tree building and search

These are read-only operations over an OS directory snapshot; the
snapshot is passed in explicitly (it is the result of `os.ReadDir` /
the subtree walked by `filepath.WalkDir`).  `filepath.Match` (glob
matching) is an opaque pure function parameter `matchPat`. -/

/-- One `os.DirEntry` of the listed directory. -/
structure DirEnt where
  name : String
  isDir : Bool
deriving DecidableEq, Repr

/-- The entry loop of `FSListDirectory` (tools.go lines 245–255): skip
protected names, prepend a `[DIR]`/`[FILE]` marker. -/
def FSListDirectory (files : List DirEnt) : List String :=
  files.foldr
    (fun f acc =>
      if isProtectedName f.name then acc
      else ((if f.isDir then "[DIR]" else "[FILE]") ++ " " ++ f.name) :: acc)
    []

/-- The entry loop of `FSListDirectoryWithSizes` (tools.go lines 462–482),
before sorting: skip protected names, classify, and sum totals.  Sizes
come with the snapshot. -/
structure SizedDirEnt where
  name : String
  isDir : Bool
  size : Nat
deriving DecidableEq, Repr

structure EntryInfo where
  name : String
  type : String
  size : Nat
deriving DecidableEq, Repr

def listWithSizesEntries (files : List SizedDirEnt) : List EntryInfo :=
  files.foldr
    (fun f acc =>
      if isProtectedName f.name then acc
      else if f.isDir then { name := f.name, type := "directory", size := 0 } :: acc
      else { name := f.name, type := "file", size := f.size } :: acc)
    []

/-! A directory subtree as seen by the OS.  A mutually inductive
tree/forest pair is used so that all recursions over it are structural
(and therefore compute inside the kernel). -/
mutual
inductive DirTree where
  | file (name : String)
  | dir (name : String) (children : DirForest)
inductive DirForest where
  | nil
  | cons (t : DirTree) (f : DirForest)
end

def DirTree.name : DirTree → String
  | .file n => n
  | .dir n _ => n

/-- A node of the `fs_directory_tree` response
(`TreeNode` in pkg/mcpsdk/server.go). -/
inductive TreeNode where
  | node (name : String) (type : String) (children : Option (List TreeNode))

def TreeNode.name : TreeNode → String
  | .node n _ _ => n

/-! `buildTree` (pkg/mcpsdk/server.go lines 672–708): exclude entries
whose *name* matches one of the caller's exclude patterns, then emit a
file node or recurse into the directory.  Note: no protected-name
filtering happens here. -/
mutual
def buildTree (matchPat : String → String → Bool) (excl : List String) : DirForest → List TreeNode
  | .nil => []
  | .cons t f =>
    (if excl.any (fun pat => matchPat pat t.name) then []
     else [buildTreeNode matchPat excl t]) ++ buildTree matchPat excl f
def buildTreeNode (matchPat : String → String → Bool) (excl : List String) : DirTree → TreeNode
  | .file n => .node n "file" none
  | .dir n cs => .node n "directory" (some (buildTree matchPat excl cs))
end

/-- The names of the roots of a tree response. -/
def treeNames (ts : List TreeNode) : List String :=
  ts.map TreeNode.name

/-- Join a workspace-relative prefix with an entry name, as
`filepath.Rel` renders the walked paths. -/
def joinRel (pre n : String) : String :=
  if pre = "" then n else pre ++ "/" ++ n

/-! The `filepath.WalkDir` callback of `FSSearchFiles` (tools.go lines
500–542): directories with a protected name are pruned (`fs.SkipDir`),
files with a protected name are skipped, and a file is reported (by its
workspace-relative path) when its name matches the pattern and no
exclude pattern matches it. -/
mutual
def searchWalk (matchPat : String → String → Bool) (pattern : String) (excl : List String)
    (pre : String) : DirTree → List String
  | .file n =>
    if isProtectedName n then []
    else if matchPat pattern n && ¬ excl.any (fun ex => matchPat ex n) then [joinRel pre n]
    else []
  | .dir n cs =>
    if isProtectedName n then []
    else searchWalkForest matchPat pattern excl (joinRel pre n) cs
def searchWalkForest (matchPat : String → String → Bool) (pattern : String) (excl : List String)
    (pre : String) : DirForest → List String
  | .nil => []
  | .cons t f =>
    searchWalk matchPat pattern excl pre t ++ searchWalkForest matchPat pattern excl pre f
end

/-! ## Claim C1 -/

/-- **C1.** For every existing workspace and every relative path containing
traversal sequences whose lexical resolution escapes the workspace root,
`SafePath` is claimed to fail with `OutOfBounds` and never return an
absolute path outside the workspace root.  The code violates this: the
final containment check is a raw `strings.HasPrefix` against the
workspace root *without a trailing separator*, so a traversal to a
sibling directory whose name extends the workspace's name — here
`../ws-evil` resolved from workspace `ws` under root `/data` — passes the
check, and `SafePath` returns `/data/ws-evil`, a path outside the
workspace root `/data/ws`. -/
theorem C1_safePath_prefix_escape :
    SafePath ["data"] true "ws" "../ws-evil" = .ok "/data/ws-evil" ∧
      isWithinRoot "/data/ws" "/data/ws-evil" = false := by
  constructor <;> decide

/-! ## Event hub (pkg/events/hub.go) -/

/-- Per-workspace hub state (`workspaceState`): sequence counter and the
circular ring buffer (backing slice, capacity, index of the oldest
entry).  The subscriber map is kept out of this state; fan-out is
modelled by the trace of published events (`publishedAt`). -/
structure WSState where
  seq : Nat := 0
  ring : List WorkspaceEvent := []
  ringCap : Nat
  ringStart : Nat := 0
deriving DecidableEq, Repr

/-- `NewHub`'s capacity normalization: non-positive capacities become
the default 200. -/
def newHubCap (ringCapacity : Int) : Int :=
  if ringCapacity ≤ 0 then 200 else ringCapacity

/-- The fresh per-workspace state allocated by `getOrCreateWS`. -/
def initWSState (cap : Nat) : WSState :=
  { ringCap := cap }

/-- `Hub.Publish` (hub.go lines 86–136), the part under the lock: fill
the timestamp default and the workspace ID, assign the next sequence ID,
and append to the ring buffer — growing it while below capacity,
otherwise overwriting the oldest slot and advancing `ringStart`.
Returns the new state together with the event value fanned out to the
subscriber channels. -/
def publishLocked (st : WSState) (workspaceID ts : String) (evt : WorkspaceEvent) :
    WSState × WorkspaceEvent :=
  let evt := { evt with ts := if evt.ts = "" then ts else evt.ts, workspaceId := workspaceID }
  let evt := { evt with id := st.seq + 1 }
  if st.ring.length < st.ringCap then
    ({ st with seq := st.seq + 1, ring := st.ring ++ [evt] }, evt)
  else
    ({ st with
        seq := st.seq + 1
        ring := st.ring.set st.ringStart evt
        ringStart := (st.ringStart + 1) % st.ringCap }, evt)

/-- `Hub.collectSinceLocked` (hub.go lines 186–204): walk the ring in
logical order (oldest first), skip zero-valued slots, and keep events
with ID strictly greater than `sinceID`. -/
def collectSinceLocked (st : WSState) (sinceID : Nat) : List WorkspaceEvent :=
  if st.ring.length = 0 then []
  else
    (List.range st.ring.length).foldl
      (fun out i =>
        let e := st.ring.getD ((st.ringStart + i) % st.ringCap) default
        if e.workspaceId = "" ∧ e.ts = "" ∧ e.type = "" then out
        else if sinceID < e.id then out ++ [e] else out)
      []

/-- The hub state of one workspace after `n` publishes from a fresh
state, the `k`-th published payload being `evs k` (1-indexed). -/
def publishSeq (cap : Nat) (workspaceID ts : String) (evs : Nat → WorkspaceEvent) :
    Nat → WSState
  | 0 => initWSState cap
  | n + 1 => (publishLocked (publishSeq cap workspaceID ts evs n) workspaceID ts (evs (n + 1))).1

/-- The event fanned out to subscribers by the `k`-th publish
(1-indexed; index 0 is unused). -/
def publishedAt (cap : Nat) (workspaceID ts : String) (evs : Nat → WorkspaceEvent) :
    Nat → WorkspaceEvent
  | 0 => default
  | k + 1 => (publishLocked (publishSeq cap workspaceID ts evs k) workspaceID ts (evs (k + 1))).2

/-! ## Slug generator (pkg/workspace, `GenerateSlug`) -/

/-- The `\s` class of Go's regexp (RE2 Perl classes): tab, newline, form
feed, carriage return, space. -/
def isGoSpace (c : Char) : Bool :=
  c = '\t' || c = '\n' || c = '\x0c' || c = '\r' || c = ' '

/-- `separatorRegex = [\s-]+` replacement with `"-"`: rewrite each maximal
run of whitespace/hyphen characters to a single hyphen.  The boolean
state records whether the previous character belonged to such a run. -/
def replaceSepRuns : Bool → List Char → List Char
  | _, [] => []
  | inRun, c :: rest =>
    if isGoSpace c || c = '-' then
      if inRun then replaceSepRuns true rest
      else '-' :: replaceSepRuns true rest
    else c :: replaceSepRuns false rest

/-- The character class kept by `invalidCharsRegex = [^a-z0-9-]`
deletion. -/
def isSlugChar (c : Char) : Bool :=
  ('a' ≤ c && c ≤ 'z') || ('0' ≤ c && c ≤ '9') || c = '-'

/-- `multiDashRegex = -{2,}` replacement with `"-"`: collapse hyphen
runs.  The boolean state records whether the previous character was a
hyphen. -/
def collapseDashes : Bool → List Char → List Char
  | _, [] => []
  | prevDash, c :: rest =>
    if c = '-' then
      if prevDash then collapseDashes true rest
      else '-' :: collapseDashes true rest
    else c :: collapseDashes false rest

/-- `strings.Trim(slug, "-")`. -/
def trimDashes (cs : List Char) : List Char :=
  ((cs.dropWhile (fun c => c = '-')).reverse.dropWhile (fun c => c = '-')).reverse

/-- `GenerateSlug` (pkg/workspace, slug source): lowercase, replace
whitespace/hyphen runs with a hyphen, delete the remaining invalid
characters, collapse repeated hyphens, trim edge hyphens, truncate to 64
and re-trim.  Lowercasing is modelled per ASCII (`Char.toLower`); every
character that survives the invalid-character deletion is ASCII, so the
result is unaffected. -/
def GenerateSlug (name : String) : String :=
  let slug := name.data.map Char.toLower
  let slug := replaceSepRuns false slug
  let slug := slug.filter isSlugChar
  let slug := collapseDashes false slug
  let slug := trimDashes slug
  let slug := if slug.length > 64 then trimDashes (slug.take 64) else slug
  String.mk slug

/-- The slug actually used by `Manager.Create` (manager.go lines 51–63):
the generated slug or, when a workspace with that slug already exists
(the `os.Stat` probe, `slugExists`), the slug with an appended
`-`-separated timestamp (`time.Now().Format("20060102150405")`, fourteen
decimal digits, passed in as `tstamp`). -/
def createSlug (slugExists : String → Bool) (tstamp : String) (name : String) : String :=
  let slug := GenerateSlug name
  if slugExists slug then slug ++ "-" ++ tstamp else slug

/-! ## Filesystem watcher (`StartFSWatcher`, events package) -/

/-- The fsnotify operation bits of one raw notification. -/
structure FSNotifyOp where
  create : Bool := false
  write : Bool := false
  remove : Bool := false
  rename : Bool := false
  chmod : Bool := false
deriving DecidableEq, Repr

/-- Segment-list prefix test (for `strings.HasPrefix` on directory
paths). -/
def segsBeginWith : List String → List String → Bool
  | [], _ => true
  | _ :: _, [] => false
  | a :: as, b :: bs => a = b && segsBeginWith as bs

/-- The watcher's `splitPath` helper: strip the root, take the first
segment as the workspace ID and rejoin the rest as the workspace-relative
path; changes outside the root or to a workspace directory itself map to
`("", "")`. -/
def splitPath (rootSegs absSegs : List String) : String × String :=
  if ¬ segsBeginWith rootSegs absSegs then ("", "")
  else
    match absSegs.drop rootSegs.length with
    | [] => ("", "")
    | wsID :: rest => (wsID, String.intercalate "/" rest)

/-- The classification switch of the watcher's raw-event loop: create →
`file.created`/`dir.created`; remove or rename → deleted (a rename is
not correlated with its destination); write or chmod → `file.updated`;
anything else is dropped.  `isDir` is the best-effort `os.Stat` result at
classification time. -/
def classifyRaw (op : FSNotifyOp) (isDir : Bool) : Option String :=
  if op.create then some (if isDir then "dir.created" else "file.created")
  else if op.remove then some (if isDir then "dir.deleted" else "file.deleted")
  else if op.rename then some (if isDir then "dir.deleted" else "file.deleted")
  else if op.write || op.chmod then some "file.updated"
  else none

/-- The debounce-map key: `(workspaceID, relativePath, eventType)`. -/
structure DebounceKey where
  wsID : String
  path : String
  typ : String
deriving DecidableEq, Repr

/-- A raw OS notification as consumed by the watcher loop: the absolute
changed path (as cleaned segments), the operation bits, the stat result,
and the arrival time (milliseconds). -/
structure RawNotification where
  absSegs : List String
  op : FSNotifyOp
  isDir : Bool
  time : Nat
deriving DecidableEq, Repr

/-- One iteration of the watcher's event loop: map the path, classify,
and coalesce into the debounce map (`debounced[key] = time.Now()`);
unmapped or unclassifiable notifications leave the map unchanged. -/
def watchStep (rootSegs : List String) (m : List (DebounceKey × Nat))
    (r : RawNotification) : List (DebounceKey × Nat) :=
  let ws := splitPath rootSegs r.absSegs
  if ws.1 = "" ∨ ws.2 = "" then m
  else
    match classifyRaw r.op r.isDir with
    | none => m
    | some typ => assocSet m { wsID := ws.1, path := ws.2, typ := typ } r.time

/-- Processing a burst of raw notifications from an empty debounce
map. -/
def watchBurst (rootSegs : List String) (raws : List RawNotification) :
    List (DebounceKey × Nat) :=
  raws.foldl (watchStep rootSegs) []

/-- `filepath.Base` restricted to the watcher's relative paths: the last
non-empty segment. -/
def baseName (p : String) : String :=
  match (pathSegs p).getLast? with
  | some s => s
  | none => if p = "" then "." else "/"

/-- ASCII `strings.ToLower`. -/
def lowerStr (s : String) : String :=
  String.mk (s.data.map Char.toLower)

/-- The watcher's `flush` helper: drop unmappable keys and protected base
names, otherwise publish a `WorkspaceEvent` carrying actor kind
`"fswatch"`. -/
def flush (wsID relPath evtType : String) (isDir : Bool) : List WorkspaceEvent :=
  if wsID = "" ∨ relPath = "" then []
  else if isProtectedName (baseName relPath) then []
  else [{ type := evtType, path := relPath, isDir := isDir,
          actor := some { kind := "fswatch" } }]

/-- The `isDir` heuristic the coalescer loop passes to `flush` (the
`||`/`&&` precedence follows the source: created events are always
flagged as directories). -/
def flushOfKey (k : DebounceKey) : List WorkspaceEvent :=
  flush k.wsID k.path k.typ
    (endsWith k.typ ".created" || (endsWith k.typ ".deleted" && endsWith (lowerStr k.path) "/"))

/-- The debounce window (200ms) and one tick of the coalescer goroutine:
flush and remove every key whose last-seen time lies at least the window
in the past.  Go map iteration order is unspecified; the model flushes in
list order. -/
def sweep (m : List (DebounceKey × Nat)) (now : Nat) :
    List (DebounceKey × Nat) × List WorkspaceEvent :=
  let toSend := m.filter (fun kt => 200 ≤ now - kt.2)
  (m.filter (fun kt => ¬ 200 ≤ now - kt.2), toSend.flatMap (fun kt => flushOfKey kt.1))

/-! ## Helper lemmas -/

theorem lookup_none_keys {β : Type} (m : List (String × β)) (k : String)
    (h : m.lookup k = none) : ∀ kv ∈ m, kv.1 ≠ k := by
  induction m with
  | nil => simp
  | cons hd tl ih =>
    obtain ⟨a, b⟩ := hd
    simp only [List.lookup] at h
    cases hba : (k == a) with
    | true => simp [hba] at h
    | false =>
      simp only [hba] at h
      intro kv hkv
      rcases List.mem_cons.mp hkv with rfl | hkv
      · intro he
        simp only [show a = k from he] at hba
        simp at hba
      · exact ih h kv hkv

theorem statExists_of_lookup {ws : WS} {p : String} {v : String}
    (h : ws.files.lookup p = some v) : statExists ws p = true := by
  simp [statExists, h]

theorem removeSubtree_of_absent (ws : WS) (p : String)
    (h : statExists ws p = false) : removeSubtree ws.files p = ws.files := by
  have h1 : ws.files.lookup p = none := by
    simp only [statExists, Bool.or_eq_false_iff] at h
    exact Option.not_isSome_iff_eq_none.mp (by simp [h.1])
  have h2 : ∀ kv ∈ ws.files, beginsWith kv.1 (p ++ "/") = false := by
    have := h
    simp only [statExists, Bool.or_eq_false_iff, hasDescendant, List.any_eq_false] at this
    intro kv hkv
    simpa using this.2 kv hkv
  apply List.filter_eq_self.mpr
  intro kv hkv
  simp [lookup_none_keys ws.files p h1 kv hkv, h2 kv hkv]

/-! ## Claim C2 -/

/-- **C2.**  For every existing file, a full-content write whose proposed
bytes hash to the file's current etag — and an edit whose resulting text
equals the original text — short-circuits: no disk write, no commit,
`bytesWritten = 0` with an empty commit hash, and no `WorkspaceEvent`
published.  (`FSWriteFile` tools.go lines 99–107, `FSEditFile` lines
380–391.)  Hypotheses: the request passes input validation, the path is
unprotected and resolves, the target exists with content `orig`, the
digest of `orig` is non-empty (true of SHA-256 hex), and the supplied
preconditions do not mismatch. -/
theorem C2_noop_write_and_edit_short_circuit
    (hash : String → String) (ecf : Bool) (root : List String) (ws : WS) :
    (∀ (a : WriteFileRequest) (absPath orig : String),
      a.workspaceId ≠ "" → a.path ≠ "" → isProtectedPath a.path = false →
      SafePath root true a.workspaceId a.path = .ok absPath →
      ws.files.lookup absPath = some orig →
      hash orig ≠ "" →
      hash a.content = hash orig →
      etagMismatch a.ifMatchFileEtag true (hash orig) = false →
      headMismatch a.ifMatchWorkspaceHead ws.head = false →
      FSWriteFile hash ecf root true ws a =
        .ok (ws, { path := a.path, bytesWritten := 0, overwritten := true, commit := "" }, [])) ∧
    (∀ (a : EditFileRequest) (absPath orig : String),
      a.workspaceId ≠ "" → a.path ≠ "" → a.edits ≠ [] → isProtectedPath a.path = false →
      SafePath root true a.workspaceId a.path = .ok absPath →
      ws.files.lookup absPath = some orig →
      (match a.ifMatchFileEtag with
        | none => false
        | some e => e != "" && hash orig != e) = false →
      headMismatch a.ifMatchWorkspaceHead ws.head = false →
      (applyEdits orig a.edits).1 = orig →
      FSEditFile hash ecf root true ws a =
        .ok (ws, .done { dryRun := false, path := a.path, changes := 0,
                         bytesWritten := 0, commit := "" }, [])) := by
  constructor
  · intro a absPath orig h1 h2 hprot hsafe hlook hne hhash hetag hhead
    have hexists : statExists ws absPath = true := statExists_of_lookup hlook
    simp only [FSWriteFile, h1, h2, hprot, hsafe, hexists, hlook, hetag, hhead, hne, hhash]
    simp [hexists, hlook, hetag, hhead, hne, hhash]
  · intro a absPath orig h1 h2 h3 hprot hsafe hlook hetag hhead happ
    simp only [FSEditFile, h1, h2, h3, hprot, hsafe, hlook, hetag, hhead, happ]
    simp [hlook, hetag, hhead, happ]

/-- Witness for C2 at a concrete state: the file `hello.txt` holds
`"hi"`; rewriting the same bytes and applying a no-match edit both
return the zero response and publish nothing. -/
theorem C2_witness :
    FSWriteFile (fun s => "h" ++ s) true ["data"] true
        { files := [("/data/ws/hello.txt", "hi")], committed := [("/data/ws/hello.txt", "hi")],
          head := "commit-1", commitCount := 1 }
        { workspaceId := "ws", path := "hello.txt", content := "hi" } =
      .ok ({ files := [("/data/ws/hello.txt", "hi")], committed := [("/data/ws/hello.txt", "hi")],
             head := "commit-1", commitCount := 1 },
           { path := "hello.txt", bytesWritten := 0, overwritten := true, commit := "" }, []) ∧
    FSEditFile (fun s => "h" ++ s) true ["data"] true
        { files := [("/data/ws/hello.txt", "hi")], committed := [("/data/ws/hello.txt", "hi")],
          head := "commit-1", commitCount := 1 }
        { workspaceId := "ws", path := "hello.txt", edits := [{ oldText := "x", newText := "y" }] } =
      .ok ({ files := [("/data/ws/hello.txt", "hi")], committed := [("/data/ws/hello.txt", "hi")],
             head := "commit-1", commitCount := 1 },
           .done { dryRun := false, path := "hello.txt", changes := 0,
                   bytesWritten := 0, commit := "" }, []) := by
  constructor
  · exact (C2_noop_write_and_edit_short_circuit (fun s => "h" ++ s) true ["data"] _).1
      _ "/data/ws/hello.txt" "hi" (by decide) (by decide) (by decide) (by decide)
      (by decide) (by decide) (by decide) (by decide) (by decide)
  · exact (C2_noop_write_and_edit_short_circuit (fun s => "h" ++ s) true ["data"] _).2
      _ "/data/ws/hello.txt" "hi" (by decide) (by decide) (by decide) (by decide)
      (by decide) (by decide) (by decide) (by decide) (by decide)

theorem etagMismatch_not_over (x : Option String) (c : String) :
    etagMismatch x false c = false := by
  cases x <;> simp [etagMismatch]

/-! ## Claim C3 -/

/-- **C3.**  (i) A write or edit supplying a non-empty `ifMatchFileEtag`
while the target file exists with content whose digest differs fails
with `Conflict` ("file etag mismatch") — and, the error being returned
before the write/commit code paths, no disk write and no commit happen
(tools.go lines 83–91 and 368–372).  (ii) When the target does not
exist, a supplied etag precondition never yields this conflict: the
write can fail only in other ways, and the edit fails with `NotFound`. -/
theorem C3_etag_precondition
    (hash : String → String) (ecf : Bool) (root : List String) (ws : WS) :
    (∀ (a : WriteFileRequest) (absPath orig e : String),
      a.workspaceId ≠ "" → a.path ≠ "" → isProtectedPath a.path = false →
      SafePath root true a.workspaceId a.path = .ok absPath →
      ws.files.lookup absPath = some orig →
      a.ifMatchFileEtag = some e → e ≠ "" → hash orig ≠ e →
      FSWriteFile hash ecf root true ws a = .error .conflictEtag) ∧
    (∀ (a : EditFileRequest) (absPath orig e : String),
      a.workspaceId ≠ "" → a.path ≠ "" → a.edits ≠ [] → isProtectedPath a.path = false →
      SafePath root true a.workspaceId a.path = .ok absPath →
      ws.files.lookup absPath = some orig →
      a.ifMatchFileEtag = some e → e ≠ "" → hash orig ≠ e →
      FSEditFile hash ecf root true ws a = .error .conflictEtag) ∧
    (∀ (a : WriteFileRequest) (absPath : String),
      a.workspaceId ≠ "" → a.path ≠ "" → isProtectedPath a.path = false →
      SafePath root true a.workspaceId a.path = .ok absPath →
      statExists ws absPath = false →
      FSWriteFile hash ecf root true ws a ≠ .error .conflictEtag) ∧
    (∀ (a : EditFileRequest) (absPath : String),
      a.workspaceId ≠ "" → a.path ≠ "" → a.edits ≠ [] → isProtectedPath a.path = false →
      SafePath root true a.workspaceId a.path = .ok absPath →
      ws.files.lookup absPath = none →
      FSEditFile hash ecf root true ws a = .error .notFound) := by
  refine ⟨?_, ?_, ?_, ?_⟩
  · intro a absPath orig e h1 h2 hprot hsafe hlook he hne hdiff
    have hexists : statExists ws absPath = true := statExists_of_lookup hlook
    have hm : etagMismatch a.ifMatchFileEtag (statExists ws absPath)
        (match ws.files.lookup absPath with
          | some b => hash b
          | none => "") = true := by
      simp [etagMismatch, he, hexists, hlook, hne, hdiff]
    simp only [FSWriteFile, h1, h2, hprot, hsafe]
    simp only [hexists, hlook]
    simp [etagMismatch, he, hne, hdiff]
  · intro a absPath orig e h1 h2 h3 hprot hsafe hlook he hne hdiff
    simp only [FSEditFile, h1, h2, h3, hprot, hsafe, hlook]
    simp [he, hne, hdiff]
  · intro a absPath h1 h2 hprot hsafe habs
    have hlook : ws.files.lookup absPath = none := by
      simp only [statExists, Bool.or_eq_false_iff] at habs
      exact Option.not_isSome_iff_eq_none.mp (by simp [habs.1])
    have hdir : statIsDir ws absPath = false := by
      simp only [statExists, Bool.or_eq_false_iff] at habs
      exact habs.2
    simp only [FSWriteFile, h1, h2, hprot, hsafe, habs, hlook, hdir, etagMismatch_not_over]
    by_cases hh : headMismatch a.ifMatchWorkspaceHead ws.head = true
    · simp [hh]
    · simp only [Bool.not_eq_true] at hh
      rcases hcm : commitWS ecf { ws with files := assocSet ws.files absPath a.content } with _ | p
      · simp [hh, hcm]
      · simp [hh, hcm]
  · intro a absPath h1 h2 h3 hprot hsafe hlook
    simp [FSEditFile, h1, h2, h3, hprot, hsafe, hlook]

/-- Witness for C3 at concrete states: a stale etag on an existing file
conflicts for both write and edit; on a missing file, a write with a
stale etag does not produce the content conflict and an edit reports
`NotFound`. -/
theorem C3_witness :
    FSWriteFile (fun s => "h" ++ s) true ["data"] true
        { files := [("/data/ws/f.txt", "v2")], committed := [("/data/ws/f.txt", "v2")],
          head := "commit-2", commitCount := 2 }
        { workspaceId := "ws", path := "f.txt", content := "v3", ifMatchFileEtag := some "hv1" } =
      .error .conflictEtag ∧
    FSEditFile (fun s => "h" ++ s) true ["data"] true
        { files := [("/data/ws/f.txt", "v2")], committed := [("/data/ws/f.txt", "v2")],
          head := "commit-2", commitCount := 2 }
        { workspaceId := "ws", path := "f.txt", edits := [{ oldText := "v", newText := "w" }],
          ifMatchFileEtag := some "hv1" } =
      .error .conflictEtag ∧
    FSWriteFile (fun s => "h" ++ s) true ["data"] true
        { files := [("/data/ws/f.txt", "v2")], committed := [("/data/ws/f.txt", "v2")],
          head := "commit-2", commitCount := 2 }
        { workspaceId := "ws", path := "new.txt", content := "v3", ifMatchFileEtag := some "hv1" } ≠
      .error .conflictEtag ∧
    FSEditFile (fun s => "h" ++ s) true ["data"] true
        { files := [("/data/ws/f.txt", "v2")], committed := [("/data/ws/f.txt", "v2")],
          head := "commit-2", commitCount := 2 }
        { workspaceId := "ws", path := "new.txt", edits := [{ oldText := "v", newText := "w" }],
          ifMatchFileEtag := some "hv1" } =
      .error .notFound := by
  have hthm := C3_etag_precondition (fun s => "h" ++ s) true ["data"]
    { files := [("/data/ws/f.txt", "v2")], committed := [("/data/ws/f.txt", "v2")],
      head := "commit-2", commitCount := 2 }
  refine ⟨?_, ?_, ?_, ?_⟩
  · exact hthm.1
      { workspaceId := "ws", path := "f.txt", content := "v3", ifMatchFileEtag := some "hv1" }
      "/data/ws/f.txt" "v2" "hv1" (by decide) (by decide) (by decide) (by decide)
      (by decide) (by decide) (by decide) (by decide)
  · exact hthm.2.1
      { workspaceId := "ws", path := "f.txt", edits := [{ oldText := "v", newText := "w" }],
        ifMatchFileEtag := some "hv1" }
      "/data/ws/f.txt" "v2" "hv1" (by decide) (by decide) (by decide) (by decide)
      (by decide) (by decide) (by decide) (by decide) (by decide)
  · exact hthm.2.2.1
      { workspaceId := "ws", path := "new.txt", content := "v3", ifMatchFileEtag := some "hv1" }
      "/data/ws/new.txt" (by decide) (by decide) (by decide) (by decide) (by decide)
  · exact hthm.2.2.2
      { workspaceId := "ws", path := "new.txt", edits := [{ oldText := "v", newText := "w" }],
        ifMatchFileEtag := some "hv1" }
      "/data/ws/new.txt" (by decide) (by decide) (by decide) (by decide) (by decide) (by decide)

/-! ## Claim C7 -/

/-- **C7.**  Claimed: creating a directory that already exists returns
`created = false` with no error and, when nothing changed, no new
commit.  The code violates this: `FSCreateDirectory` (tools.go lines
199–234) always calls `Commit` after ensuring the directory and its
`.gitkeep`.  Re-creating an existing directory with a clean working tree
therefore either fails with `INTERNAL` (a backend that rejects empty
commits, go-git's `ErrEmptyCommit`) or produces a brand-new commit (a
backend that records empty commits) — never the claimed
"`created=false`, no error, no new commit".  Both backend semantics are
evaluated below at that failing input. -/
theorem C7_create_existing_directory_not_idempotent :
    FSCreateDirectory true ["data"] true
        { files := [("/data/ws/d/.gitkeep", "")], committed := [("/data/ws/d/.gitkeep", "")],
          head := "commit-1", commitCount := 1 }
        { workspaceId := "ws", path := "d" } = .error .internal ∧
    FSCreateDirectory false ["data"] true
        { files := [("/data/ws/d/.gitkeep", "")], committed := [("/data/ws/d/.gitkeep", "")],
          head := "commit-1", commitCount := 1 }
        { workspaceId := "ws", path := "d" } =
      .ok ({ files := [("/data/ws/d/.gitkeep", "")], committed := [("/data/ws/d/.gitkeep", "")],
             head := "commit-2", commitCount := 2 },
           { path := "d", created := false, commit := "commit-2" },
           [{ type := "dir.created", path := "d", isDir := true, commit := some "commit-2" }]) := by
  constructor <;> decide

/-! ## Claim C10 -/

/-- **C10.**  For every in-bounds, unprotected path that does not exist,
`FSDeleteFile` (tools.go lines 592–630) never fails with `NotFound`:
there is no existence check, `os.RemoveAll` succeeds vacuously, and the
operation proceeds to attempt a commit; whenever that commit succeeds,
the call returns success with a fresh commit hash and publishes a
`file.deleted` event for the never-existing path. -/
theorem C10_delete_missing_path
    (ecf : Bool) (root : List String) (ws : WS) (a : DeleteFileRequest) (absPath : String)
    (h1 : a.workspaceId ≠ "") (h2 : a.path ≠ "") (hprot : isProtectedPath a.path = false)
    (hsafe : SafePath root true a.workspaceId a.path = .ok absPath)
    (habs : statExists ws absPath = false) :
    FSDeleteFile ecf root true ws a ≠ .error .notFound ∧
    (∀ ws' r evs, FSDeleteFile ecf root true ws a = .ok (ws', r, evs) →
      r.path = a.path ∧ r.commit ≠ "" ∧
      evs = [{ type := "file.deleted", path := a.path, isDir := false,
               commit := some r.commit }]) ∧
    (¬ (ecf = true ∧ ws.files = ws.committed) →
      ∃ ws' r evs, FSDeleteFile ecf root true ws a = .ok (ws', r, evs)) := by
  have hdir : statIsDir ws absPath = false := by
    simp only [statExists, Bool.or_eq_false_iff] at habs
    exact habs.2
  have hrm : removeSubtree ws.files absPath = ws.files := removeSubtree_of_absent ws absPath habs
  have hws2 : ({ ws with files := removeSubtree ws.files absPath } : WS) = ws := by
    rw [hrm]
  by_cases hc : ecf = true ∧ ws.files = ws.committed
  · have hcs : commitWS ecf ws = none := by simp [commitWS, hc.1, hc.2]
    have hres : FSDeleteFile ecf root true ws a = .error .internal := by
      simp only [FSDeleteFile, hsafe, hws2, hcs]
      simp [h1, h2, hprot]
    rw [hres]
    exact ⟨by simp, by simp, fun hn => absurd hc hn⟩
  · have hcs : commitWS ecf ws =
        some ({ ws with
                  committed := ws.files
                  head := "commit-" ++ toString (ws.commitCount + 1)
                  commitCount := ws.commitCount + 1 },
              "commit-" ++ toString (ws.commitCount + 1)) := by
      simp only [commitWS]
      rw [if_neg]
      intro hcc
      exact hc ⟨hcc.1, hcc.2⟩
    have hres : FSDeleteFile ecf root true ws a =
        .ok ({ ws with
                 committed := ws.files
                 head := "commit-" ++ toString (ws.commitCount + 1)
                 commitCount := ws.commitCount + 1 },
             { path := a.path, commit := "commit-" ++ toString (ws.commitCount + 1) },
             [{ type := "file.deleted", path := a.path, isDir := false,
                commit := some ("commit-" ++ toString (ws.commitCount + 1)) }]) := by
      simp only [FSDeleteFile, hsafe, hws2, hcs]
      simp [h1, h2, hprot, hdir]
    rw [hres]
    refine ⟨by simp, ?_, fun _ => ⟨_, _, _, rfl⟩⟩
    intro ws' r evs hok
    have h3 := Except.ok.inj hok
    have hr := congrArg (fun p => p.2.1) h3
    have hevs := congrArg (fun p => p.2.2) h3
    simp only at hr hevs
    refine ⟨by rw [← hr], ?_, by rw [← hevs, ← hr]⟩
    rw [← hr]
    show ("commit-" ++ toString (ws.commitCount + 1)) ≠ ""
    intro hEq
    have hlen := congrArg String.length hEq
    rw [String.length_append] at hlen
    have h7 : "commit-".length = 7 := rfl
    have h0 : "".length = 0 := rfl
    omega

/-- Witness for C10: deleting `ghost.txt`, which never existed, in a
workspace whose tree is dirty (so the commit succeeds). -/
theorem C10_witness :
    (FSDeleteFile true ["data"] true
        { files := [("/data/ws/x.txt", "v")], committed := [], head := "", commitCount := 0 }
        { workspaceId := "ws", path := "ghost.txt" } ≠ .error .notFound) ∧
    (∀ ws' r evs, FSDeleteFile true ["data"] true
        { files := [("/data/ws/x.txt", "v")], committed := [], head := "", commitCount := 0 }
        { workspaceId := "ws", path := "ghost.txt" } = .ok (ws', r, evs) →
      r.path = "ghost.txt" ∧ r.commit ≠ "" ∧
      evs = [{ type := "file.deleted", path := "ghost.txt", isDir := false,
               commit := some r.commit }]) ∧
    (¬ ((true : Bool) = true ∧
        ([("/data/ws/x.txt", "v")] : List (String × String)) = []) →
      ∃ ws' r evs, FSDeleteFile true ["data"] true
        { files := [("/data/ws/x.txt", "v")], committed := [], head := "", commitCount := 0 }
        { workspaceId := "ws", path := "ghost.txt" } = .ok (ws', r, evs)) :=
  C10_delete_missing_path true ["data"]
    { files := [("/data/ws/x.txt", "v")], committed := [], head := "", commitCount := 0 }
    { workspaceId := "ws", path := "ghost.txt" } "/data/ws/ghost.txt"
    (by decide) (by decide) (by decide) (by decide) (by decide)

/-! ## Claim C6: protected-path filtering -/

/-- A name contains a path separator (impossible for real `os.DirEntry`
names). -/
def strHasSlash (s : String) : Bool :=
  s.data.any (fun c => c = '/')

/-- Well-formedness of an OS entry name: non-empty and slash-free. -/
def nameOk (n : String) : Bool :=
  (n != "") && ! strHasSlash n

mutual
def treeNamesOk : DirTree → Bool
  | .file n => nameOk n
  | .dir n cs => nameOk n && forestNamesOk cs
def forestNamesOk : DirForest → Bool
  | .nil => true
  | .cons t f => treeNamesOk t && forestNamesOk f
end

/-- Some segment of the path is a protected name. -/
def hasProtectedSeg (p : String) : Bool :=
  (pathSegs p).any isProtectedName

theorem splitChar_ne_nil (sep : Char) (cs : List Char) : splitChar sep cs ≠ [] := by
  cases cs with
  | nil => simp [splitChar]
  | cons c rest =>
    simp only [splitChar]
    split
    · simp
    · split
      · simp
      · simp_all

theorem splitChar_append_sep (sep : Char) (xs ys : List Char) :
    splitChar sep (xs ++ sep :: ys) = splitChar sep xs ++ splitChar sep ys := by
  induction xs with
  | nil => simp [splitChar]
  | cons c rest ih =>
    by_cases hc : c = sep
    · subst hc
      simp [splitChar, ih]
    · rcases hsp : splitChar sep rest with _ | ⟨h, t⟩
      · exact absurd hsp (splitChar_ne_nil sep rest)
      · rw [List.cons_append]
        simp only [splitChar, hc, if_false]
        rw [ih, hsp, List.cons_append]
        rfl

theorem splitChar_no_sep (sep : Char) (cs : List Char) (h : ∀ c ∈ cs, c ≠ sep) :
    splitChar sep cs = [cs] := by
  induction cs with
  | nil => rfl
  | cons c rest ih =>
    have hc : c ≠ sep := h c (List.mem_cons_self c rest)
    have hr := ih (fun x hx => h x (List.mem_cons_of_mem c hx))
    simp [splitChar, hc, hr]

theorem string_mk_data (s : String) : String.mk s.data = s := rfl

theorem pathSegs_append_slash (a b : String) :
    pathSegs (a ++ "/" ++ b) = pathSegs a ++ pathSegs b := by
  have hdata : (a ++ "/" ++ b).data = a.data ++ '/' :: b.data := by
    show (a.data ++ "/".data ++ b.data) = a.data ++ '/' :: b.data
    simp
  simp only [pathSegs, hdata, splitChar_append_sep, List.map_append, List.filter_append]

theorem pathSegs_of_nameOk (n : String) (h : nameOk n = true) : pathSegs n = [n] := by
  simp only [nameOk, Bool.and_eq_true, bne_iff_ne, ne_eq, Bool.not_eq_true'] at h
  obtain ⟨hne, hsl⟩ := h
  have hns : ∀ c ∈ n.data, c ≠ '/' := by
    simp only [strHasSlash, List.any_eq_false, decide_eq_true_eq] at hsl
    exact hsl
  simp only [pathSegs, splitChar_no_sep '/' n.data hns, List.map_cons, List.map_nil,
    string_mk_data]
  simp [hne]

theorem pathSegs_joinRel (pre n : String) (h : nameOk n = true) :
    pathSegs (joinRel pre n) = pathSegs pre ++ [n] := by
  by_cases hp : pre = ""
  · subst hp
    rw [show joinRel "" n = n from by simp [joinRel]]
    rw [pathSegs_of_nameOk n h]
    rw [show pathSegs "" = [] from by decide]
    rfl
  · simp [joinRel, hp, pathSegs_append_slash, pathSegs_of_nameOk n h]

theorem hasProtectedSeg_joinRel (pre n : String) (hpre : hasProtectedSeg pre = false)
    (hn : nameOk n = true) (hpn : isProtectedName n = false) :
    hasProtectedSeg (joinRel pre n) = false := by
  simp only [hasProtectedSeg, pathSegs_joinRel pre n hn, List.any_append, List.any_cons,
    List.any_nil, Bool.or_eq_false_iff]
  constructor
  · simpa [hasProtectedSeg] using hpre
  · simp [hpn]

mutual
theorem searchWalk_no_protected (mp : String → String → Bool) (pattern : String)
    (excl : List String) (pre : String) (t : DirTree)
    (hok : treeNamesOk t = true) (hpre : hasProtectedSeg pre = false) :
    ∀ m ∈ searchWalk mp pattern excl pre t, hasProtectedSeg m = false := by
  cases t with
  | file n =>
    intro m hm
    simp only [searchWalk] at hm
    by_cases hprot : isProtectedName n = true
    · simp [hprot] at hm
    · simp only [Bool.not_eq_true] at hprot
      simp only [hprot, Bool.false_eq_true, if_false] at hm
      split at hm
      · rcases List.mem_singleton.mp hm with rfl
        exact hasProtectedSeg_joinRel pre n hpre (by simpa [treeNamesOk] using hok) hprot
      · cases hm
  | dir n cs =>
    intro m hm
    simp only [searchWalk] at hm
    by_cases hprot : isProtectedName n = true
    · simp [hprot] at hm
    · simp only [Bool.not_eq_true] at hprot
      simp only [hprot, Bool.false_eq_true, if_false] at hm
      have hok' : forestNamesOk cs = true := by
        simp only [treeNamesOk, Bool.and_eq_true] at hok
        exact hok.2
      have hnok : nameOk n = true := by
        simp only [treeNamesOk, Bool.and_eq_true] at hok
        exact hok.1
      exact searchWalkForest_no_protected mp pattern excl (joinRel pre n) cs hok'
        (hasProtectedSeg_joinRel pre n hpre hnok hprot) m hm
theorem searchWalkForest_no_protected (mp : String → String → Bool) (pattern : String)
    (excl : List String) (pre : String) (f : DirForest)
    (hok : forestNamesOk f = true) (hpre : hasProtectedSeg pre = false) :
    ∀ m ∈ searchWalkForest mp pattern excl pre f, hasProtectedSeg m = false := by
  cases f with
  | nil =>
    intro m hm
    simp [searchWalkForest] at hm
  | cons t f' =>
    intro m hm
    simp only [searchWalkForest, List.mem_append] at hm
    simp only [forestNamesOk, Bool.and_eq_true] at hok
    rcases hm with hm | hm
    · exact searchWalk_no_protected mp pattern excl pre t hok.1 hpre m hm
    · exact searchWalkForest_no_protected mp pattern excl pre f' hok.2 hpre m hm
end

theorem listDirectory_omits (files : List DirEnt) :
    ∀ s ∈ FSListDirectory files, ∃ d ∈ files, isProtectedName d.name = false ∧
      s = (if d.isDir then "[DIR]" else "[FILE]") ++ " " ++ d.name := by
  induction files with
  | nil => simp [FSListDirectory]
  | cons d rest ih =>
    intro s hs
    simp only [FSListDirectory, List.foldr_cons] at hs
    by_cases hp : isProtectedName d.name = true
    · simp only [hp, if_true] at hs
      obtain ⟨d', hd', hpd', hsd'⟩ := ih s hs
      exact ⟨d', List.mem_cons_of_mem d hd', hpd', hsd'⟩
    · simp only [Bool.not_eq_true] at hp
      simp only [hp, Bool.false_eq_true, if_false, List.mem_cons] at hs
      rcases hs with rfl | hs
      · exact ⟨d, List.mem_cons_self d rest, hp, rfl⟩
      · obtain ⟨d', hd', hpd', hsd'⟩ := ih s hs
        exact ⟨d', List.mem_cons_of_mem d hd', hpd', hsd'⟩

theorem isProtectedPath_ne_empty {p : String} (h : isProtectedPath p = true) : p ≠ "" := by
  intro he
  rw [he] at h
  simp [isProtectedPath, pathSegs, splitChar, cleanSegs] at h

/-- **C6 (counterexample).**  The claim — every operation on a path with a
protected segment fails `NotFound`, and tree-walks silently omit
protected entries — is false on the code in two ways, both exhibited at
concrete inputs.  (1) `buildTree` (the `fs_directory_tree` walk) performs
no protected-name filtering: the version-control directory `.git` and
the placeholder `.gitkeep` appear in its output when no exclude pattern
is supplied.  (2) `isProtectedPath` cleans the path first, so the raw
path `.git/../a` — whose segment list contains `.git` — is not treated
as protected, and a write to it succeeds instead of failing `NotFound`. -/
theorem C6_counterexample :
    treeNames (buildTree (fun _ _ => false) []
        (.cons (.file ".gitkeep")
          (.cons (.dir ".git" (.cons (.file "config") .nil))
            (.cons (.file "a.txt") .nil)))) = [".gitkeep", ".git", "a.txt"] ∧
    isProtectedPath ".git/../a" = false ∧
    FSWriteFile (fun s => "h" ++ s) true ["data"] true {}
        { workspaceId := "ws", path := ".git/../a", content := "x" } =
      .ok ({ files := [("/data/ws/a", "x")], committed := [("/data/ws/a", "x")],
             head := "commit-1", commitCount := 1 },
           { path := ".git/../a", bytesWritten := 1, overwritten := false, commit := "commit-1" },
           [{ type := "file.created", path := ".git/../a", isDir := false,
              commit := some "commit-1" }]) := by
  refine ⟨?_, ?_, ?_⟩ <;> decide

/-- **C6 (amended).**  For every path whose *lexically cleaned* form has a
protected segment (`isProtectedPath`), read, write, edit, delete, move
and file-info fail with `NotFound`; directory listing omits
protected-named entries; and search-walk results never contain a
protected segment (for well-formed OS entry names and a prefix free of
protected segments).  The directory-tree walk is excluded: as the
counterexample shows, it does not filter protected names. -/
theorem C6_protected_paths_amended
    (hash : String → String) (ecf : Bool) (root : List String) (wsEx : Bool) (ws : WS) :
    (∀ a : WriteFileRequest, a.workspaceId ≠ "" → isProtectedPath a.path = true →
        FSWriteFile hash ecf root wsEx ws a = .error .notFound) ∧
    (∀ a : ReadFileRequest, a.workspaceId ≠ "" → ¬ (a.head.isSome ∧ a.tail.isSome) →
        isProtectedPath a.path = true → FSReadTextFile hash root wsEx ws a = .error .notFound) ∧
    (∀ a : EditFileRequest, a.workspaceId ≠ "" → a.edits ≠ [] → isProtectedPath a.path = true →
        FSEditFile hash ecf root wsEx ws a = .error .notFound) ∧
    (∀ a : DeleteFileRequest, a.workspaceId ≠ "" → isProtectedPath a.path = true →
        FSDeleteFile ecf root wsEx ws a = .error .notFound) ∧
    (∀ a : MoveFileRequest,
        isProtectedPath a.source = true ∨ isProtectedPath a.destination = true →
        FSMoveFile ecf root wsEx ws a = .error .notFound) ∧
    (∀ a : GetFileInfoRequest, isProtectedPath a.path = true →
        FSGetFileInfo root wsEx ws a = .error .notFound) ∧
    (∀ (files : List DirEnt) (s : String), s ∈ FSListDirectory files →
        ∃ d ∈ files, isProtectedName d.name = false ∧
          s = (if d.isDir then "[DIR]" else "[FILE]") ++ " " ++ d.name) ∧
    (∀ (mp : String → String → Bool) (pattern : String) (excl : List String) (pre : String)
        (t : DirTree), treeNamesOk t = true → hasProtectedSeg pre = false →
        ∀ m ∈ searchWalk mp pattern excl pre t, hasProtectedSeg m = false) := by
  refine ⟨?_, ?_, ?_, ?_, ?_, ?_, ?_, ?_⟩
  · intro a h1 hp
    simp [FSWriteFile, h1, isProtectedPath_ne_empty hp, hp]
  · intro a h1 hht hp
    simp [FSReadTextFile, h1, isProtectedPath_ne_empty hp, hht, hp]
  · intro a h1 h3 hp
    simp [FSEditFile, h1, h3, isProtectedPath_ne_empty hp, hp]
  · intro a h1 hp
    simp [FSDeleteFile, h1, isProtectedPath_ne_empty hp, hp]
  · intro a hp
    rcases hp with hp | hp <;> simp [FSMoveFile, hp]
  · intro a hp
    simp [FSGetFileInfo, hp]
  · exact listDirectory_omits
  · exact searchWalk_no_protected

/-- Witness for the amended C6 at concrete inputs: every operation on
`sub/.git` fails `NotFound`; the listing of a directory holding `.git`,
`.gitkeep` and `a.txt` omits the protected pair; a search over a tree
containing them reports no path with a protected segment. -/
theorem C6_witness :
    FSWriteFile (fun s => "h" ++ s) true ["data"] true {}
        { workspaceId := "ws", path := "sub/.git", content := "x" } = .error .notFound ∧
    FSReadTextFile (fun s => "h" ++ s) ["data"] true {}
        { workspaceId := "ws", path := "sub/.git" } = .error .notFound ∧
    FSEditFile (fun s => "h" ++ s) true ["data"] true {}
        { workspaceId := "ws", path := "sub/.git",
          edits := [{ oldText := "a", newText := "b" }] } = .error .notFound ∧
    FSDeleteFile true ["data"] true {}
        { workspaceId := "ws", path := "sub/.git" } = .error .notFound ∧
    FSMoveFile true ["data"] true {}
        { workspaceId := "ws", source := ".gitkeep", destination := "k" } = .error .notFound ∧
    FSGetFileInfo ["data"] true {}
        { workspaceId := "ws", path := ".git/config" } = .error .notFound ∧
    (∀ s ∈ FSListDirectory
        [{ name := ".git", isDir := true }, { name := ".gitkeep", isDir := false },
         { name := "a.txt", isDir := false }],
      ∃ d ∈ [({ name := ".git", isDir := true } : DirEnt), { name := ".gitkeep", isDir := false },
             { name := "a.txt", isDir := false }],
        isProtectedName d.name = false ∧
          s = (if d.isDir then "[DIR]" else "[FILE]") ++ " " ++ d.name) ∧
    (∀ m ∈ searchWalk (fun _ _ => true) "*" [] ""
        (.dir "ws" (.cons (.file ".gitkeep") (.cons (.file "a.txt") .nil))),
      hasProtectedSeg m = false) := by
  have hthm := C6_protected_paths_amended (fun s => "h" ++ s) true ["data"] true {}
  refine ⟨?_, ?_, ?_, ?_, ?_, ?_, ?_, ?_⟩
  · exact hthm.1 { workspaceId := "ws", path := "sub/.git", content := "x" }
      (by decide) (by decide)
  · exact hthm.2.1 { workspaceId := "ws", path := "sub/.git" } (by decide) (by decide) (by decide)
  · exact hthm.2.2.1
      { workspaceId := "ws", path := "sub/.git", edits := [{ oldText := "a", newText := "b" }] }
      (by decide) (by decide) (by decide)
  · exact hthm.2.2.2.1 { workspaceId := "ws", path := "sub/.git" } (by decide) (by decide)
  · exact hthm.2.2.2.2.1 { workspaceId := "ws", source := ".gitkeep", destination := "k" }
      (Or.inl (by decide))
  · exact hthm.2.2.2.2.2.1 { workspaceId := "ws", path := ".git/config" } (by decide)
  · exact hthm.2.2.2.2.2.2.1
      [{ name := ".git", isDir := true }, { name := ".gitkeep", isDir := false },
       { name := "a.txt", isDir := false }]
  · exact hthm.2.2.2.2.2.2.2 (fun _ _ => true) "*" [] ""
      (.dir "ws" (.cons (.file ".gitkeep") (.cons (.file "a.txt") .nil)))
      (by decide) (by decide)

/-! ## Claim C8: slug validity -/

/-- No two adjacent hyphens. -/
def noDoubleDash (cs : List Char) : Prop :=
  List.Chain' (fun a b => ¬ (a = '-' ∧ b = '-')) cs

theorem string_data_append (a b : String) : (a ++ b).data = a.data ++ b.data := by
  cases a
  cases b
  rfl

theorem string_ne_empty_data {s : String} (h : s ≠ "") : s.data ≠ [] := by
  intro hd
  apply h
  cases s
  simp_all

theorem mem_collapseDashes (b : Bool) (cs : List Char) :
    ∀ c ∈ collapseDashes b cs, c ∈ cs := by
  induction cs generalizing b with
  | nil => simp [collapseDashes]
  | cons c rest ih =>
    intro x hx
    simp only [collapseDashes] at hx
    by_cases hc : c = '-'
    · subst hc
      simp only [if_pos rfl] at hx
      cases b with
      | true => exact List.mem_cons_of_mem _ (ih true x hx)
      | false =>
        rcases List.mem_cons.mp hx with rfl | hx
        · exact List.mem_cons_self _ _
        · exact List.mem_cons_of_mem _ (ih true x hx)
    · simp only [hc, if_false] at hx
      rcases List.mem_cons.mp hx with rfl | hx
      · exact List.mem_cons_self _ _
      · exact List.mem_cons_of_mem _ (ih false x hx)

theorem head?_collapseDashes_true (cs : List Char) :
    ∀ c, (collapseDashes true cs).head? = some c → c ≠ '-' := by
  induction cs with
  | nil => simp [collapseDashes]
  | cons c rest ih =>
    intro x hx
    simp only [collapseDashes] at hx
    by_cases hc : c = '-'
    · subst hc
      simp only [if_pos rfl] at hx
      exact ih x hx
    · simp only [hc, if_false, List.head?_cons, Option.some.injEq] at hx
      subst hx
      exact hc

theorem chain'_collapseDashes (b : Bool) (cs : List Char) :
    noDoubleDash (collapseDashes b cs) := by
  induction cs generalizing b with
  | nil => simp [collapseDashes, noDoubleDash]
  | cons c rest ih =>
    by_cases hc : c = '-'
    · cases b with
      | true =>
        rw [show collapseDashes true (c :: rest) = collapseDashes true rest from by
          simp [collapseDashes, hc]]
        exact ih true
      | false =>
        rw [show collapseDashes false (c :: rest) = '-' :: collapseDashes true rest from by
          simp [collapseDashes, hc]]
        rw [noDoubleDash, List.chain'_cons']
        refine ⟨?_, ih true⟩
        intro y hy hand
        exact head?_collapseDashes_true rest y hy hand.2
    · rw [show collapseDashes b (c :: rest) = c :: collapseDashes false rest from by
        simp [collapseDashes, hc]]
      rw [noDoubleDash, List.chain'_cons']
      refine ⟨?_, ih false⟩
      intro y hy hand
      exact hc hand.1

theorem head?_dropWhile_false (p : Char → Bool) (l : List Char) :
    ∀ c, ((l.dropWhile p).head? = some c) → p c = false := by
  induction l with
  | nil => simp
  | cons c rest ih =>
    intro x hx
    by_cases hp : p c = true
    · rw [List.dropWhile_cons_of_pos hp] at hx
      exact ih x hx
    · rw [List.dropWhile_cons_of_neg hp] at hx
      simp only [List.head?_cons, Option.some.injEq] at hx
      subst hx
      simpa using hp

theorem getLast?_dropWhile (p : Char → Bool) (l : List Char)
    (h : l.dropWhile p ≠ []) : (l.dropWhile p).getLast? = l.getLast? := by
  induction l with
  | nil => simp at h
  | cons c rest ih =>
    by_cases hp : p c = true
    · rw [List.dropWhile_cons_of_pos hp] at h ⊢
      have hrest : rest ≠ [] := by
        intro hr
        subst hr
        simp at h
      rw [ih h]
      cases rest with
      | nil => exact absurd rfl hrest
      | cons r rs => rw [List.getLast?_cons_cons]
    · rw [List.dropWhile_cons_of_neg hp]

theorem mem_trimDashes (cs : List Char) : ∀ c ∈ trimDashes cs, c ∈ cs := by
  intro c hc
  simp only [trimDashes, List.mem_reverse] at hc
  have h1 := List.dropWhile_sublist (l := (cs.dropWhile (fun c => c = '-')).reverse)
    (p := fun c => c = '-')
  have h2 := h1.mem hc
  rw [List.mem_reverse] at h2
  exact (List.dropWhile_sublist (l := cs) (p := fun c => c = '-')).mem h2

theorem trimDashes_head (cs : List Char) :
    ∀ c, (trimDashes cs).head? = some c → c ≠ '-' := by
  intro c hc
  simp only [trimDashes] at hc
  rw [List.head?_reverse] at hc
  rcases hz : (cs.dropWhile (fun c => c = '-')).reverse.dropWhile (fun c => c = '-')
      with _ | ⟨z, zs⟩
  · rw [hz] at hc
    simp at hc
  · rw [getLast?_dropWhile _ _ (by rw [hz]; simp)] at hc
    rw [List.getLast?_reverse] at hc
    intro he
    subst he
    have := head?_dropWhile_false (fun c => c = '-') cs _ hc
    simp at this

theorem trimDashes_getLast (cs : List Char) :
    ∀ c, (trimDashes cs).getLast? = some c → c ≠ '-' := by
  intro c hc
  simp only [trimDashes] at hc
  rw [List.getLast?_reverse] at hc
  intro he
  subst he
  have := head?_dropWhile_false (fun c => c = '-') _ _ hc
  simp at this

theorem chain'_dropWhile {R : Char → Char → Prop} (p : Char → Bool) (l : List Char)
    (h : List.Chain' R l) : List.Chain' R (l.dropWhile p) := by
  induction l with
  | nil => simp
  | cons c rest ih =>
    by_cases hp : p c = true
    · rw [List.dropWhile_cons_of_pos hp]
      exact ih (List.chain'_cons'.mp h).2
    · rw [List.dropWhile_cons_of_neg hp]
      exact h

theorem chain'_reverse_symm (l : List Char) (h : noDoubleDash l) :
    noDoubleDash l.reverse := by
  rw [noDoubleDash, List.chain'_reverse]
  exact h.imp (fun a b hab => fun hand => hab ⟨hand.2, hand.1⟩)

theorem chain'_trimDashes (cs : List Char) (h : noDoubleDash cs) :
    noDoubleDash (trimDashes cs) := by
  apply chain'_reverse_symm
  apply chain'_dropWhile
  apply chain'_reverse_symm
  apply chain'_dropWhile
  exact h

theorem length_trimDashes (cs : List Char) : (trimDashes cs).length ≤ cs.length := by
  simp only [trimDashes, List.length_reverse]
  calc ((cs.dropWhile (fun c => c = '-')).reverse.dropWhile (fun c => c = '-')).length
      ≤ (cs.dropWhile (fun c => c = '-')).reverse.length :=
        (List.dropWhile_sublist _).length_le
    _ = (cs.dropWhile (fun c => c = '-')).length := List.length_reverse _
    _ ≤ cs.length := (List.dropWhile_sublist _).length_le

theorem data_mk (l : List Char) : (String.mk l).data = l := rfl

theorem noDoubleDash_of_no_dash (l : List Char) (h : ∀ c ∈ l, c ≠ '-') :
    noDoubleDash l := by
  induction l with
  | nil => simp [noDoubleDash]
  | cons c rest ih =>
    rw [noDoubleDash, List.chain'_cons']
    refine ⟨?_, ih (fun x hx => h x (List.mem_cons_of_mem c hx))⟩
    intro y _ hand
    exact h c (List.mem_cons_self c rest) hand.1

theorem getLast?_mem_self {l : List Char} {a : Char} (h : l.getLast? = some a) : a ∈ l := by
  induction l with
  | nil => simp at h
  | cons c rest ih =>
    cases rest with
    | nil =>
      simp only [List.getLast?_singleton, Option.some.injEq] at h
      simp [h]
    | cons r rs =>
      rw [List.getLast?_cons_cons] at h
      exact List.mem_cons_of_mem c (ih h)

/-- The five shape properties of `GenerateSlug`: every character is in
`[a-z0-9-]` (in particular lowercase), the length is at most 64, there is
no leading or trailing hyphen, and no two adjacent hyphens. -/
theorem generateSlug_props (name : String) :
    (∀ c ∈ (GenerateSlug name).data, isSlugChar c = true) ∧
    (GenerateSlug name).data.length ≤ 64 ∧
    (∀ c, (GenerateSlug name).data.head? = some c → c ≠ '-') ∧
    (∀ c, (GenerateSlug name).data.getLast? = some c → c ≠ '-') ∧
    noDoubleDash (GenerateSlug name).data := by
  unfold GenerateSlug
  simp only [data_mk]
  set s1 := replaceSepRuns false (name.data.map Char.toLower) with hs1
  set s2 := s1.filter isSlugChar with hs2
  set s3 := collapseDashes false s2 with hs3
  set s4 := trimDashes s3 with hs4
  have hchar4 : ∀ c ∈ s4, isSlugChar c = true := by
    intro c hc
    have h3 := mem_trimDashes s3 c hc
    have h2 := mem_collapseDashes false s2 c h3
    exact (List.mem_filter.mp h2).2
  have hchain4 : noDoubleDash s4 := chain'_trimDashes s3 (chain'_collapseDashes false s2)
  by_cases hlen : s4.length > 64
  · simp only [hlen, if_true]
    refine ⟨?_, ?_, ?_, ?_, ?_⟩
    · intro c hc
      exact hchar4 c ((List.take_sublist 64 s4).subset (mem_trimDashes _ c hc))
    · calc (trimDashes (s4.take 64)).length ≤ (s4.take 64).length := length_trimDashes _
        _ ≤ 64 := by simp [List.length_take]
    · exact trimDashes_head _
    · exact trimDashes_getLast _
    · exact chain'_trimDashes _ (hchain4.take 64)
  · simp only [hlen, if_false]
    refine ⟨hchar4, by omega, trimDashes_head _, trimDashes_getLast _, hchain4⟩

theorem getLast?_append_cons (A : List Char) (x : Char) (B : List Char) :
    (A ++ x :: B).getLast? = (x :: B).getLast? := by
  induction A with
  | nil => rfl
  | cons a as ih =>
    cases as with
    | nil =>
      simp only [List.cons_append, List.nil_append]
      rw [List.getLast?_cons_cons]
    | cons a2 as2 =>
      simp only [List.cons_append] at ih ⊢
      rw [List.getLast?_cons_cons]
      exact ih

theorem isDigit_slugChar {c : Char} (h : c.isDigit = true) : isSlugChar c = true := by
  simp only [Char.isDigit, ge_iff_le, Bool.and_eq_true, decide_eq_true_eq] at h
  have h1 : '0' ≤ c := by
    rw [Char.le_def]
    exact h.1
  have h2 : c ≤ '9' := by
    rw [Char.le_def]
    exact h.2
  simp [isSlugChar, h1, h2]

theorem isDigit_ne_dash {c : Char} (h : c.isDigit = true) : c ≠ '-' := by
  intro he
  rw [he] at h
  exact absurd h (by decide)

/-- **C8 (counterexample).**  The claim bounds the actually-used slug by
64 characters.  For a 64-character name colliding with an existing
workspace, `Manager.Create` appends `-` plus the 14-digit timestamp: the
resulting slug has 79 characters. -/
theorem C8_counterexample :
    (createSlug (fun _ => true) "20060102150405"
        (String.mk (List.replicate 64 'a'))).data.length = 79 ∧
    ¬ (createSlug (fun _ => true) "20060102150405"
        (String.mk (List.replicate 64 'a'))).data.length ≤ 64 := by
  constructor <;> decide

/-- **C8 (amended).**  The slug under which `create(name)` creates the
workspace is drawn from `[a-z0-9-]` (hence lowercase) with no leading,
trailing or duplicate hyphens — provided the generated base slug is
non-empty — and is at most 64 characters when no collision occurs, but
up to 79 characters (64 + 1 + 14-digit timestamp) when the
collision-disambiguation suffix is appended. -/
theorem C8_slug_validity_amended (slugExists : String → Bool) (tstamp name : String)
    (htlen : tstamp.data.length = 14)
    (hdig : ∀ c ∈ tstamp.data, c.isDigit = true)
    (hbase : GenerateSlug name ≠ "") :
    (∀ c ∈ (createSlug slugExists tstamp name).data, isSlugChar c = true) ∧
    (createSlug slugExists tstamp name).data.length ≤ 79 ∧
    (slugExists (GenerateSlug name) = false →
      (createSlug slugExists tstamp name).data.length ≤ 64) ∧
    (∀ c, (createSlug slugExists tstamp name).data.head? = some c → c ≠ '-') ∧
    (∀ c, (createSlug slugExists tstamp name).data.getLast? = some c → c ≠ '-') ∧
    noDoubleDash (createSlug slugExists tstamp name).data := by
  obtain ⟨hchar, hlen64, hhead, hlast, hchain⟩ := generateSlug_props name
  have hts_ne : tstamp.data ≠ [] := by
    intro h
    rw [h] at htlen
    simp at htlen
  unfold createSlug
  by_cases hex : slugExists (GenerateSlug name) = true
  · simp only [hex, if_true]
    have hdata : (GenerateSlug name ++ "-" ++ tstamp).data
        = (GenerateSlug name).data ++ '-' :: tstamp.data := by
      rw [string_data_append, string_data_append]
      simp
    rw [hdata]
    refine ⟨?_, ?_, ?_, ?_, ?_, ?_⟩
    · intro c hc
      rcases List.mem_append.mp hc with hc | hc
      · exact hchar c hc
      · rcases List.mem_cons.mp hc with rfl | hc
        · decide
        · exact isDigit_slugChar (hdig c hc)
    · simp only [List.length_append, List.length_cons, htlen]
      omega
    · intro hf
      simp at hf
    · rcases hA : (GenerateSlug name).data with _ | ⟨a0, arest⟩
      · exact absurd hA (string_ne_empty_data hbase)
      · intro c hc
        simp only [List.cons_append, List.head?_cons, Option.some.injEq] at hc
        rw [← hc]
        exact hhead a0 (by rw [hA]; rfl)
    · intro c hc
      rw [getLast?_append_cons] at hc
      rcases hT : tstamp.data with _ | ⟨t0, trest⟩
      · exact absurd hT hts_ne
      · rw [hT, List.getLast?_cons_cons] at hc
        have hmem : c ∈ t0 :: trest := getLast?_mem_self hc
        rw [← hT] at hmem
        exact isDigit_ne_dash (hdig c hmem)
    · rw [noDoubleDash, List.chain'_append]
      refine ⟨hchain, ?_, ?_⟩
      · rw [List.chain'_cons']
        refine ⟨?_, noDoubleDash_of_no_dash _ (fun c hc => isDigit_ne_dash (hdig c hc))⟩
        intro y hy hand
        exact isDigit_ne_dash (hdig y (List.mem_of_mem_head? hy)) hand.2
      · intro x hx y hy hand
        exact hlast x (Option.mem_def.mp hx) hand.1
  · simp only [Bool.not_eq_true] at hex
    simp only [hex, Bool.false_eq_true, if_false]
    exact ⟨hchar, by omega, fun _ => hlen64, hhead, hlast, hchain⟩

/-- Witness for the amended C8: creating `"My Test Workspace"` while a
workspace with slug `my-test-workspace` already exists. -/
theorem C8_witness :
    (∀ c ∈ (createSlug (fun _ => true) "20260102030405" "My Test Workspace").data,
        isSlugChar c = true) ∧
    (createSlug (fun _ => true) "20260102030405" "My Test Workspace").data.length ≤ 79 ∧
    ((fun _ => true : String → Bool) (GenerateSlug "My Test Workspace") = false →
      (createSlug (fun _ => true) "20260102030405" "My Test Workspace").data.length ≤ 64) ∧
    (∀ c, (createSlug (fun _ => true) "20260102030405" "My Test Workspace").data.head? = some c →
        c ≠ '-') ∧
    (∀ c, (createSlug (fun _ => true) "20260102030405" "My Test Workspace").data.getLast? = some c →
        c ≠ '-') ∧
    noDoubleDash (createSlug (fun _ => true) "20260102030405" "My Test Workspace").data :=
  C8_slug_validity_amended (fun _ => true) "20260102030405" "My Test Workspace"
    (by decide) (by decide) (by decide)

/-! ## Claim C9: external file creation through the watcher -/

/-- **C9 (counterexample).**  The claim says the published event carries
an actor descriptor of kind `"filesystem"`.  At a concrete external
creation of `newfile.txt` (one raw create notification, swept after the
debounce window) exactly one `file.created` event is published, but its
actor kind is the literal `"fswatch"` (hub.go's actor vocabulary), not
`"filesystem"`. -/
theorem C9_counterexample :
    (sweep (watchBurst ["data"]
        [{ absSegs := ["data", "ws", "newfile.txt"], op := { create := true },
           isDir := false, time := 0 }]) 200).2 =
      [{ type := "file.created", path := "newfile.txt", isDir := true,
         actor := some { kind := "fswatch" } }] ∧
    ∀ e ∈ (sweep (watchBurst ["data"]
        [{ absSegs := ["data", "ws", "newfile.txt"], op := { create := true },
           isDir := false, time := 0 }]) 200).2,
      e.actor ≠ some { kind := "filesystem" } := by
  constructor <;> decide

theorem foldl_watchStep_single (root : List String) (k : DebounceKey)
    (raws : List RawNotification)
    (hkey : ∀ r ∈ raws, splitPath root r.absSegs = (k.wsID, k.path) ∧
        classifyRaw r.op r.isDir = some k.typ)
    (hws : k.wsID ≠ "") (hrel : k.path ≠ "") :
    ∀ t0, raws.foldl (watchStep root) [(k, t0)] =
      [(k, (raws.map RawNotification.time).getLastD t0)] := by
  induction raws with
  | nil => intro t0; rfl
  | cons r rest ih =>
    intro t0
    have hk := hkey r (List.mem_cons_self r rest)
    have hstep : watchStep root [(k, t0)] r = [(k, r.time)] := by
      simp only [watchStep, hk.1, hk.2]
      simp [hws, hrel, assocSet]
    rw [List.foldl_cons, hstep, ih (fun x hx => hkey x (List.mem_cons_of_mem r hx)) r.time]
    rw [List.map_cons, List.getLastD_cons]

/-- **C9 (amended).**  When an external process creates a file in a
workspace directory, every raw notification of the burst maps to the
same debounce key `(workspaceID, relativePath, "file.created")`; after
the burst the debounce map holds exactly one entry for that key, and the
first sweep at least the 200 ms debounce window after the last
notification publishes exactly **one** `file.created` event for that
path, carrying an actor descriptor of kind `"fswatch"` (the code's
marker for filesystem-watcher origin; the spec's word for it is
"filesystem"). -/
theorem C9_external_create_single_event_amended
    (root : List String) (raws : List RawNotification) (k : DebounceKey) (now : Nat)
    (hne : raws ≠ [])
    (hkey : ∀ r ∈ raws, splitPath root r.absSegs = (k.wsID, k.path) ∧
        classifyRaw r.op r.isDir = some k.typ)
    (hws : k.wsID ≠ "") (hrel : k.path ≠ "")
    (hprot : isProtectedName (baseName k.path) = false)
    (htyp : k.typ = "file.created")
    (hnow : ∀ r ∈ raws, r.time + 200 ≤ now) :
    (sweep (watchBurst root raws) now).2 =
      [{ type := "file.created", path := k.path, isDir := true,
         actor := some { kind := "fswatch" } }] ∧
    (sweep (watchBurst root raws) now).1 = [] := by
  rcases raws with _ | ⟨r1, rest⟩
  · exact absurd rfl hne
  · have hk1 := hkey r1 (List.mem_cons_self r1 rest)
    have hstep : watchStep root [] r1 = [(k, r1.time)] := by
      simp only [watchStep, hk1.1, hk1.2]
      simp [hws, hrel, assocSet]
    have hburst : watchBurst root (r1 :: rest) =
        [(k, (rest.map RawNotification.time).getLastD r1.time)] := by
      rw [watchBurst, List.foldl_cons, hstep]
      exact foldl_watchStep_single root k rest
        (fun x hx => hkey x (List.mem_cons_of_mem r1 hx)) hws hrel r1.time
    set T := (rest.map RawNotification.time).getLastD r1.time with hT
    have hTmem : T ∈ (r1 :: rest).map RawNotification.time := by
      rw [List.map_cons]
      exact List.getLastD_mem_cons _ _
    have hTle : T + 200 ≤ now := by
      obtain ⟨r, hr, hrt⟩ := List.mem_map.mp hTmem
      rw [← hrt]
      exact hnow r hr
    have hc2 : 200 ≤ now - T := by omega
    have hflush : flushOfKey k =
        [{ type := "file.created", path := k.path, isDir := true,
           actor := some { kind := "fswatch" } }] := by
      rw [flushOfKey, htyp]
      rw [show endsWith "file.created" ".created" = true from by decide]
      rw [Bool.true_or]
      simp [flush, hws, hrel, hprot]
    rw [hburst]
    constructor
    · simp only [sweep]
      simp [List.filter_cons, hc2, hflush]
    · simp only [sweep]
      simp [List.filter_cons, hc2]

/-- Witness for the amended C9: a two-notification burst for
`newfile.txt` swept 200 ms after the last notification publishes exactly
one `file.created` event with actor kind `"fswatch"`. -/
theorem C9_witness :
    (sweep (watchBurst ["data"]
        [{ absSegs := ["data", "ws", "newfile.txt"], op := { create := true },
           isDir := false, time := 0 },
         { absSegs := ["data", "ws", "newfile.txt"], op := { create := true },
           isDir := false, time := 50 }]) 250).2 =
      [{ type := "file.created", path := "newfile.txt", isDir := true,
         actor := some { kind := "fswatch" } }] ∧
    (sweep (watchBurst ["data"]
        [{ absSegs := ["data", "ws", "newfile.txt"], op := { create := true },
           isDir := false, time := 0 },
         { absSegs := ["data", "ws", "newfile.txt"], op := { create := true },
           isDir := false, time := 50 }]) 250).1 = [] :=
  C9_external_create_single_event_amended ["data"]
    [{ absSegs := ["data", "ws", "newfile.txt"], op := { create := true },
       isDir := false, time := 0 },
     { absSegs := ["data", "ws", "newfile.txt"], op := { create := true },
       isDir := false, time := 50 }]
    { wsID := "ws", path := "newfile.txt", typ := "file.created" } 250
    (by decide) (by decide) (by decide) (by decide) (by decide) (by decide) (by decide)

/-! ## Claims C4 and C5: hub ring buffer and delivery ordering -/

/-- The event value as decorated by `Publish` when it is the `k`-th
publish to its workspace (timestamp default filled, workspace ID and
sequence ID assigned). -/
def pubEvt (workspaceID ts : String) (evs : Nat → WorkspaceEvent) (k : Nat) : WorkspaceEvent :=
  { evs k with
      ts := if (evs k).ts = "" then ts else (evs k).ts
      workspaceId := workspaceID
      id := k }

/-- The ring buffer read in logical order (oldest first), exactly as
`collectSinceLocked` walks it. -/
def logicalRing (st : WSState) : List WorkspaceEvent :=
  (List.range st.ring.length).map
    (fun i => st.ring.getD ((st.ringStart + i) % st.ringCap) default)

theorem mod_two_regions (a m : Nat) (h : a < 2 * m) :
    a % m = if a < m then a else a - m := by
  by_cases ha : a < m
  · simp [Nat.mod_eq_of_lt ha, ha]
  · rw [if_neg ha]
    rw [Nat.mod_eq_sub_mod (by omega)]
    exact Nat.mod_eq_of_lt (by omega)

/-- Characterization of the per-workspace hub state after `n` publishes
from a fresh state: the sequence counter equals `n`, the ring holds the
last `min n cap` events, and logical slot `i` holds the
`(n - min n cap + i + 1)`-th published event. -/
theorem publishSeq_spec (cap : Nat) (hcap : 0 < cap) (workspaceID ts : String)
    (evs : Nat → WorkspaceEvent) (n : Nat) :
    (publishSeq cap workspaceID ts evs n).ringCap = cap ∧
    (publishSeq cap workspaceID ts evs n).seq = n ∧
    (publishSeq cap workspaceID ts evs n).ring.length = min n cap ∧
    (publishSeq cap workspaceID ts evs n).ringStart =
      (if n ≤ cap then 0 else (n - cap) % cap) ∧
    (∀ i, i < min n cap →
      (publishSeq cap workspaceID ts evs n).ring.getD
          (((publishSeq cap workspaceID ts evs n).ringStart + i) % cap) default =
        pubEvt workspaceID ts evs (n - min n cap + i + 1)) := by
  induction n with
  | zero =>
    refine ⟨rfl, rfl, by simp [publishSeq, initWSState], by simp [publishSeq, initWSState], ?_⟩
    intro i hi
    simp at hi
  | succ n ih =>
    obtain ⟨hc, hs, hl, hst, hcont⟩ := ih
    set st := publishSeq cap workspaceID ts evs n with hstdef
    have hevt : ({ { evs (n + 1) with
          ts := if (evs (n + 1)).ts = "" then ts else (evs (n + 1)).ts
          workspaceId := workspaceID } with id := st.seq + 1 } : WorkspaceEvent) =
        pubEvt workspaceID ts evs (n + 1) := by
      rw [hs]
      rfl
    by_cases hn : n < cap
    · have hmin : min n cap = n := min_eq_left (le_of_lt hn)
      have hmin1 : min (n + 1) cap = n + 1 := min_eq_left (by omega)
      have hlt : st.ring.length < st.ringCap := by
        rw [hl, hc, hmin]
        exact hn
      have hstart0 : st.ringStart = 0 := by
        rw [hst, if_pos (le_of_lt hn)]
      have hpub : publishSeq cap workspaceID ts evs (n + 1) =
          { st with seq := st.seq + 1,
                    ring := st.ring ++ [pubEvt workspaceID ts evs (n + 1)] } := by
        show (publishLocked st workspaceID ts (evs (n + 1))).1 = _
        simp only [publishLocked]
        rw [if_pos hlt, hevt]
      rw [hpub]
      refine ⟨hc, by rw [hs], ?_, ?_, ?_⟩
      · simp only [List.length_append, List.length_cons, List.length_nil, hl, hmin, hmin1]
      · simp only [hstart0, if_pos (show n + 1 ≤ cap by omega)]
      · intro i hi
        rw [hmin1] at hi
        simp only [hstart0]
        rw [Nat.zero_add, Nat.mod_eq_of_lt (by omega)]
        rw [hmin1]
        by_cases hin : i < n
        · rw [List.getD_append _ _ _ _ (by rw [hl, hmin]; exact hin)]
          have := hcont i (by rw [hmin]; exact hin)
          rw [hstart0, Nat.zero_add, Nat.mod_eq_of_lt (by omega), hmin] at this
          rw [this]
          congr 1
          omega
        · have hieq : i = n := by omega
          subst hieq
          rw [List.getD_append_right _ _ _ _ (by rw [hl, hmin])]
          rw [hl, hmin, Nat.sub_self]
          simp only [List.getD_cons_zero]
          congr 1
          omega
    · have hcle : cap ≤ n := le_of_not_lt hn
      have hmin : min n cap = cap := min_eq_right hcle
      have hmin1 : min (n + 1) cap = cap := min_eq_right (by omega)
      have hnlt : ¬ st.ring.length < st.ringCap := by
        rw [hl, hc, hmin]
        exact lt_irrefl cap
      have hstart' : st.ringStart = (n - cap) % cap := by
        rw [hst]
        by_cases hle : n ≤ cap
        · have : n = cap := le_antisymm hle hcle
          rw [if_pos hle, this, Nat.sub_self, Nat.zero_mod]
        · rw [if_neg hle]
      have hstartlt : st.ringStart < cap := by
        rw [hstart']
        exact Nat.mod_lt _ hcap
      have hpub : publishSeq cap workspaceID ts evs (n + 1) =
          { st with seq := st.seq + 1,
                    ring := st.ring.set st.ringStart (pubEvt workspaceID ts evs (n + 1)),
                    ringStart := (st.ringStart + 1) % st.ringCap } := by
        show (publishLocked st workspaceID ts (evs (n + 1))).1 = _
        simp only [publishLocked]
        rw [if_neg hnlt, hevt]
      have hringlen : st.ring.length = cap := by rw [hl, hmin]
      rw [hpub]
      refine ⟨hc, by rw [hs], ?_, ?_, ?_⟩
      · simp only [List.length_set, hringlen, hmin1]
      · simp only [hc, hstart']
        rw [if_neg (show ¬ n + 1 ≤ cap by omega)]
        rw [Nat.mod_add_mod]
        congr 1
        omega
      · intro i hi
        rw [hmin1] at hi
        simp only [hc]
        have hidx : (((st.ringStart + 1) % cap + i) % cap) = (st.ringStart + (i + 1)) % cap := by
          rw [Nat.mod_add_mod]
          congr 1
          omega
        rw [hidx]
        have hidxlt : (st.ringStart + (i + 1)) % cap < st.ring.length := by
          rw [hringlen]
          exact Nat.mod_lt _ hcap
        by_cases hi1 : i + 1 < cap
        · have hne : (st.ringStart + (i + 1)) % cap ≠ st.ringStart := by
            rw [mod_two_regions _ _ (by omega)]
            by_cases hlt2 : st.ringStart + (i + 1) < cap
            · rw [if_pos hlt2]
              omega
            · rw [if_neg hlt2]
              omega
          rw [List.getD_eq_getElem _ _ (by rw [List.length_set]; exact hidxlt)]
          rw [List.getElem_set_ne (Ne.symm hne)]
          rw [← List.getD_eq_getElem _ default hidxlt]
          have := hcont (i + 1) (by rw [hmin]; exact hi1)
          rw [hmin] at this
          rw [this]
          congr 1
          omega
        · have hieq : i + 1 = cap := by omega
          have hidx2 : (st.ringStart + (i + 1)) % cap = st.ringStart := by
            rw [hieq, Nat.add_mod_right]
            exact Nat.mod_eq_of_lt hstartlt
          rw [hidx2]
          rw [List.getD_eq_getElem _ _ (by rw [List.length_set, hringlen]; exact hstartlt)]
          rw [List.getElem_set]
          rw [if_pos rfl]
          congr 1
          omega

theorem logicalRing_spec (cap : Nat) (hcap : 0 < cap) (workspaceID ts : String)
    (evs : Nat → WorkspaceEvent) (n : Nat) :
    logicalRing (publishSeq cap workspaceID ts evs n) =
      (List.range (min n cap)).map
        (fun i => pubEvt workspaceID ts evs (n - min n cap + i + 1)) := by
  obtain ⟨hc, _, hl, _, hcont⟩ := publishSeq_spec cap hcap workspaceID ts evs n
  unfold logicalRing
  rw [hl, hc]
  apply List.map_congr_left
  intro i hi
  exact hcont i (List.mem_range.mp hi)

theorem foldl_skip_append (p q : WorkspaceEvent → Prop) [DecidablePred p] [DecidablePred q]
    (g : Nat → WorkspaceEvent) (l : List Nat) (acc : List WorkspaceEvent) :
    l.foldl (fun out i => if p (g i) then out else if q (g i) then out ++ [g i] else out) acc =
      acc ++ (l.map g).filter (fun e => ¬ p e ∧ q e) := by
  induction l generalizing acc with
  | nil => simp
  | cons i rest ih =>
    rw [List.foldl_cons, List.map_cons, List.filter_cons]
    by_cases hp : p (g i)
    · rw [if_pos hp, ih]
      simp [hp]
    · rw [if_neg hp]
      by_cases hq : q (g i)
      · rw [if_pos hq, ih]
        simp [hp, hq]
      · rw [if_neg hq, ih]
        simp [hp, hq]

theorem collectSinceLocked_eq (st : WSState) (s : Nat) :
    collectSinceLocked st s =
      (logicalRing st).filter
        (fun e => ¬ (e.workspaceId = "" ∧ e.ts = "" ∧ e.type = "") ∧ s < e.id) := by
  unfold collectSinceLocked logicalRing
  by_cases h : st.ring.length = 0
  · simp [h]
  · rw [if_neg h]
    have := foldl_skip_append
      (fun e => e.workspaceId = "" ∧ e.ts = "" ∧ e.type = "")
      (fun e => s < e.id)
      (fun i => st.ring.getD ((st.ringStart + i) % st.ringCap) default)
      (List.range st.ring.length) []
    rw [List.nil_append] at this
    exact this

theorem collect_publishSeq (cap : Nat) (hcap : 0 < cap) (workspaceID ts : String)
    (hws : workspaceID ≠ "") (evs : Nat → WorkspaceEvent) (n s : Nat) :
    collectSinceLocked (publishSeq cap workspaceID ts evs n) s =
      ((List.range (min n cap)).map
        (fun i => pubEvt workspaceID ts evs (n - min n cap + i + 1))).filter
        (fun e => s < e.id) := by
  rw [collectSinceLocked_eq, logicalRing_spec cap hcap workspaceID ts evs n]
  apply List.filter_congr
  intro e he
  obtain ⟨i, hi, rfl⟩ := List.mem_map.mp he
  simp [pubEvt, hws]

theorem collect_zero (cap : Nat) (hcap : 0 < cap) (workspaceID ts : String)
    (hws : workspaceID ≠ "") (evs : Nat → WorkspaceEvent) (n : Nat) (hn : cap < n) :
    collectSinceLocked (publishSeq cap workspaceID ts evs n) 0 =
      (List.range cap).map (fun i => pubEvt workspaceID ts evs (n - cap + i + 1)) := by
  rw [collect_publishSeq cap hcap workspaceID ts hws evs n 0]
  rw [min_eq_right (le_of_lt hn)]
  apply List.filter_eq_self.mpr
  intro e he
  obtain ⟨i, hi, rfl⟩ := List.mem_map.mp he
  simp [pubEvt]

/-- **C4.**  The per-workspace ring buffer: `NewHub` defaults a
non-positive capacity to 200; after any number of publishes the ring
never holds more than `cap` events; once full, each publish evicts
exactly the oldest buffered event (the logical ring becomes its own tail
plus the new event); and after `n > cap` publishes a subscriber
attaching with `sinceID = 0` is replayed exactly the most recent `cap`
events, in ID order — in particular at most `cap` events. -/
theorem C4_ring_buffer_bound (cap : Nat) (hcap : 0 < cap) (workspaceID ts : String)
    (hws : workspaceID ≠ "") (evs : Nat → WorkspaceEvent) :
    newHubCap 0 = 200 ∧
    (∀ n, (publishSeq cap workspaceID ts evs n).ring.length ≤ cap) ∧
    (∀ n, cap ≤ n →
      logicalRing (publishSeq cap workspaceID ts evs (n + 1)) =
        (logicalRing (publishSeq cap workspaceID ts evs n)).tail ++
          [pubEvt workspaceID ts evs (n + 1)]) ∧
    (∀ n, cap < n →
      collectSinceLocked (publishSeq cap workspaceID ts evs n) 0 =
        (List.range cap).map (fun i => pubEvt workspaceID ts evs (n - cap + i + 1)) ∧
      (collectSinceLocked (publishSeq cap workspaceID ts evs n) 0).length = cap) := by
  refine ⟨by decide, ?_, ?_, ?_⟩
  · intro n
    obtain ⟨_, _, hl, _, _⟩ := publishSeq_spec cap hcap workspaceID ts evs n
    rw [hl]
    exact min_le_right n cap
  · intro n hcle
    rw [logicalRing_spec cap hcap workspaceID ts evs (n + 1),
        logicalRing_spec cap hcap workspaceID ts evs n]
    rw [min_eq_right hcle, min_eq_right (by omega : cap ≤ n + 1)]
    obtain ⟨c, rfl⟩ : ∃ c, cap = c + 1 := ⟨cap - 1, by omega⟩
    conv_lhs => rw [List.range_succ]
    conv_rhs => rw [List.range_succ_eq_map]
    rw [List.map_append, List.map_singleton, List.map_cons, List.tail_cons, List.map_map]
    congr 1
    · apply List.map_congr_left
      intro i hi
      simp only [Function.comp_apply]
      have harg : n + 1 - (c + 1) + i + 1 = n - (c + 1) + Nat.succ i + 1 := by omega
      rw [harg]
    · have harg : n + 1 - (c + 1) + c + 1 = n + 1 := by omega
      rw [harg]
  · intro n hn
    refine ⟨collect_zero cap hcap workspaceID ts hws evs n hn, ?_⟩
    rw [collect_zero cap hcap workspaceID ts hws evs n hn]
    simp

/-- Witness for C4 at capacity 2 and three publishes of constant
payloads: the ring holds two events, the fourth publish evicts the
oldest, and replay from `sinceID = 0` returns exactly the last two
events in ID order. -/
theorem C4_witness :
    (publishSeq 2 "w" "T" (fun _ => { type := "file.updated", path := "p" }) 3).ring.length ≤ 2 ∧
    logicalRing (publishSeq 2 "w" "T" (fun _ => { type := "file.updated", path := "p" }) 4) =
      (logicalRing (publishSeq 2 "w" "T" (fun _ => { type := "file.updated", path := "p" }) 3)).tail ++
        [pubEvt "w" "T" (fun _ => { type := "file.updated", path := "p" }) 4] ∧
    collectSinceLocked (publishSeq 2 "w" "T" (fun _ => { type := "file.updated", path := "p" }) 3) 0 =
      (List.range 2).map
        (fun i => pubEvt "w" "T" (fun _ => { type := "file.updated", path := "p" }) (3 - 2 + i + 1)) ∧
    (collectSinceLocked (publishSeq 2 "w" "T" (fun _ => { type := "file.updated", path := "p" }) 3) 0).length = 2 := by
  have hthm := C4_ring_buffer_bound 2 (by decide) "w" "T" (by decide)
    (fun _ => { type := "file.updated", path := "p" })
  exact ⟨hthm.2.1 3, hthm.2.2.1 3 (by decide), (hthm.2.2.2 3 (by decide)).1,
    (hthm.2.2.2 3 (by decide)).2⟩

theorem pubEvt_id (workspaceID ts : String) (evs : Nat → WorkspaceEvent) (k : Nat) :
    (pubEvt workspaceID ts evs k).id = k := rfl

/-- The event fanned out by the `(k+1)`-th publish is the decorated
`(k+1)`-th payload (in particular its ID is `k+1`); both branches of
`publishLocked` fan out the same event value. -/
theorem publishedAt_eq (cap : Nat) (hcap : 0 < cap) (workspaceID ts : String)
    (evs : Nat → WorkspaceEvent) (k : Nat) :
    publishedAt cap workspaceID ts evs (k + 1) = pubEvt workspaceID ts evs (k + 1) := by
  obtain ⟨_, hs, _, _, _⟩ := publishSeq_spec cap hcap workspaceID ts evs k
  show (publishLocked (publishSeq cap workspaceID ts evs k) workspaceID ts (evs (k + 1))).2 = _
  simp only [publishLocked]
  by_cases h : (publishSeq cap workspaceID ts evs k).ring.length <
      (publishSeq cap workspaceID ts evs k).ringCap
  · rw [if_pos h, hs]
    rfl
  · rw [if_neg h, hs]
    rfl

/-- **C5.**  For any sequence of publishes to one workspace, the IDs
delivered to a single subscriber — the replay of buffered events with ID
greater than its cursor, followed by the live fan-out of subsequent
publishes — are strictly increasing; any sub-sequence of them (the
non-blocking fan-out may drop events for a slow subscriber, which yields
a sublist) is still strictly increasing and duplicate-free. -/
theorem C5_delivered_ids_strictly_increasing (cap : Nat) (hcap : 0 < cap)
    (workspaceID ts : String) (hws : workspaceID ≠ "") (evs : Nat → WorkspaceEvent)
    (n m sinceID : Nat) :
    List.Pairwise (· < ·)
      ((collectSinceLocked (publishSeq cap workspaceID ts evs n) sinceID ++
        (List.range m).map (fun j => publishedAt cap workspaceID ts evs (n + j + 1))).map
        WorkspaceEvent.id) ∧
    (∀ l, List.Sublist l
        ((collectSinceLocked (publishSeq cap workspaceID ts evs n) sinceID ++
          (List.range m).map (fun j => publishedAt cap workspaceID ts evs (n + j + 1))).map
          WorkspaceEvent.id) →
      List.Pairwise (· < ·) l ∧ l.Nodup) := by
  have hmle := min_le_left n cap
  have hmain : List.Pairwise (· < ·)
      ((collectSinceLocked (publishSeq cap workspaceID ts evs n) sinceID ++
        (List.range m).map (fun j => publishedAt cap workspaceID ts evs (n + j + 1))).map
        WorkspaceEvent.id) := by
    rw [collect_publishSeq cap hcap workspaceID ts hws evs n sinceID]
    have hlive : (List.range m).map (fun j => publishedAt cap workspaceID ts evs (n + j + 1)) =
        (List.range m).map (fun j => pubEvt workspaceID ts evs (n + j + 1)) := by
      apply List.map_congr_left
      intro j _
      exact publishedAt_eq cap hcap workspaceID ts evs (n + j)
    rw [hlive, List.map_append, List.pairwise_append]
    refine ⟨?_, ?_, ?_⟩
    · apply List.Pairwise.map WorkspaceEvent.id (fun a b h => h)
      apply List.Pairwise.filter
      refine List.Pairwise.map _ ?_ (List.pairwise_lt_range _)
      intro i j hij
      show (pubEvt workspaceID ts evs (n - min n cap + i + 1)).id <
        (pubEvt workspaceID ts evs (n - min n cap + j + 1)).id
      rw [pubEvt_id, pubEvt_id]
      omega
    · apply List.Pairwise.map WorkspaceEvent.id (fun a b h => h)
      refine List.Pairwise.map _ ?_ (List.pairwise_lt_range _)
      intro i j hij
      show (pubEvt workspaceID ts evs (n + i + 1)).id <
        (pubEvt workspaceID ts evs (n + j + 1)).id
      rw [pubEvt_id, pubEvt_id]
      omega
    · intro a ha b hb
      obtain ⟨e, he, rfl⟩ := List.mem_map.mp ha
      obtain ⟨e2, he2, rfl⟩ := List.mem_map.mp hb
      have he' := List.mem_of_mem_filter he
      obtain ⟨i, hi, rfl⟩ := List.mem_map.mp he'
      obtain ⟨j, hj, rfl⟩ := List.mem_map.mp he2
      rw [pubEvt_id, pubEvt_id]
      have hi' := List.mem_range.mp hi
      omega
  refine ⟨hmain, ?_⟩
  intro l hsub
  have hp := hmain.sublist hsub
  exact ⟨hp, hp.imp (fun h => ne_of_lt h)⟩

/-- Witness for C5: capacity 2, three publishes before subscribing with
`sinceID = 0`, then two live publishes — the delivered IDs are
`[2, 3, 4, 5]`, strictly increasing; the sublist `[2, 5]` (a drop
pattern) is still increasing and duplicate-free. -/
theorem C5_witness :
    List.Pairwise (· < ·)
      ((collectSinceLocked (publishSeq 2 "w" "T"
          (fun _ => { type := "file.updated", path := "p" }) 3) 0 ++
        (List.range 2).map (fun j => publishedAt 2 "w" "T"
          (fun _ => { type := "file.updated", path := "p" }) (3 + j + 1))).map
        WorkspaceEvent.id) ∧
    (∀ l, List.Sublist l
        ((collectSinceLocked (publishSeq 2 "w" "T"
            (fun _ => { type := "file.updated", path := "p" }) 3) 0 ++
          (List.range 2).map (fun j => publishedAt 2 "w" "T"
            (fun _ => { type := "file.updated", path := "p" }) (3 + j + 1))).map
          WorkspaceEvent.id) →
      List.Pairwise (· < ·) l ∧ l.Nodup) :=
  C5_delivered_ids_strictly_increasing 2 (by decide) "w" "T" (by decide)
    (fun _ => { type := "file.updated", path := "p" }) 3 2 0

end McpWorkspaces
